import Mathlib

/-!
# Arduino-RotaryEncoder: quadrature decoder and Timer1 multiplexer

A shallow embedding of `RotaryEncoder.cpp` and `Timer.cpp`.

Conventions of the embedding.

* `uint16_t` / `uint32_t` values are natural numbers; every operation that can
  leave the range is followed by an explicit `% 2 ^ 16` / `% 2 ^ 32`.
* A function pointer is a natural number naming the function; `none` is `NULL`.
* A call through a function pointer is recorded in a trace (a list, oldest call
  first).
* `digitalRead` is an input of the model: each operation that reads the pins takes
  the two values read as arguments, as arbitrary integers.
* In `RotaryEncoder.cpp` an array access outside the array makes the operation return
  `none`. In `Timer.cpp` every index into `tAttaches` is bounded by the loop of the
  interrupt handler or was handed out by the constructor under its guard
  `MAX_INSTANCE > iInstance`; the accessors are total.
-/

/-! ## RotaryEncoder.cpp -/

/-- Table for determining the rotation direction (`iMutations`), entry
`previous * 4 + current`. -/
def iMutations : List Int :=
  [ /- 0 -> 0 : 0 -/  0,
    /- 0 -> 1 : + -/  1,
    /- 0 -> 2 : - -/ -1,
    /- 0 -> 3 : E -/  0,
    /- 1 -> 0 : - -/ -1,
    /- 1 -> 1 : 0 -/  0,
    /- 1 -> 2 : E -/  0,
    /- 1 -> 3 : + -/  1,
    /- 2 -> 0 : + -/  1,
    /- 2 -> 1 : E -/  0,
    /- 2 -> 2 : 0 -/  0,
    /- 2 -> 3 : - -/ -1,
    /- 3 -> 0 : E -/  0,
    /- 3 -> 1 : - -/ -1,
    /- 3 -> 2 : + -/  1,
    /- 3 -> 3 : 0 -/  0 ]

/-- Length of a connection-check buffer (`CONNECTION_CHECK_BUF_LENGTH`). -/
def CONNECTION_CHECK_BUF_LENGTH : Nat := 4

/-- The expression `digitalRead(pin) & 1` for a pin read `v`: the lowest bit of
the two's complement integer `v`, which is `v mod 2` with a non-negative
remainder. -/
def lowBit (v : Int) : Nat := (v % 2).toNat

/-- The expression `((digitalRead(iIoportA) & 1) << 1) | (digitalRead(iIoportB) & 1)`
stored into a `uint16_t`. -/
def packSample (readA readB : Int) : Nat :=
  ((lowBit readA <<< 1) ||| lowBit readB) % 2 ^ 16

/-- The members of a `RotaryEncoder` object. `tCheckBuf` holds the contents of the
caller's buffer the pointer refers to, `none` for a `NULL` pointer. -/
structure RotaryEncoder where
  fCallback : Option Nat
  iIoportA : Nat
  iIoportB : Nat
  iOld : Nat
  bDoConnectionCheck : Bool
  tCheckBuf : Option (List Nat)
deriving DecidableEq

/-- One call `fCallback(iMutation)`: the function called, its argument, and the
value the member `iOld` has at the moment of the call. -/
structure DirectionCall where
  fn : Nat
  arg : Int
  iOldAtCall : Nat
deriving DecidableEq

namespace RotaryEncoder

/-- The constructor `RotaryEncoder::RotaryEncoder(ioA, ioB, f)`; `readA` and `readB`
are the results of its two `digitalRead` calls. -/
def new (ioA ioB : Nat) (f : Option Nat) (readA readB : Int) : RotaryEncoder :=
  { fCallback := f
    iIoportA := ioA
    iIoportB := ioB
    iOld := packSample readA readB
    bDoConnectionCheck := false
    tCheckBuf := none }

/-- The index expression `(iOld << 2) | iNow` of `CheckValue`, computed in 16-bit
unsigned arithmetic. -/
def tableIndex (iOld iNow : Nat) : Nat :=
  ((iOld <<< 2) % 2 ^ 16) ||| iNow

/-- The method `RotaryEncoder::CheckValue`; `readA` and `readB` are the results of its
two `digitalRead` calls. Returns the object after the call and the calls made to
the callback. -/
def CheckValue (s : RotaryEncoder) (readA readB : Int) :
    Option (RotaryEncoder × List DirectionCall) :=
  -- Get current value
  let iNow := packSample readA readB
  -- Determine rotation direction from current location and previous value
  match iMutations[tableIndex s.iOld iNow]? with
  | none => none
  | some iMutation =>
    -- Save value this time
    let s1 := { s with iOld := iNow }
    -- Call back direction of rotation
    let calls : List DirectionCall :=
      match s1.fCallback with
      | some f => if iMutation ≠ 0 then [⟨f, iMutation, s1.iOld⟩] else []
      | none => []
    -- Connection check
    match s1.tCheckBuf with
    | none => some (s1, calls)
    | some buf =>
      match buf[iNow]? with
      | none => none
      | some c => some ({ s1 with tCheckBuf := some (buf.set iNow ((c + 1) % 2 ^ 16)) }, calls)

/-- The loop of `RefreshCheck` from index `i` on, with `n` iterations left:
`tCheckBuf[i] = 0` for each index. -/
def clearFrom (buf : List Nat) (i : Nat) : Nat → Option (List Nat)
  | 0 => some buf
  | n + 1 => if i < buf.length then clearFrom (buf.set i 0) (i + 1) n else none

/-- The method `RotaryEncoder::RefreshCheck`. -/
def RefreshCheck (s : RotaryEncoder) : Option RotaryEncoder :=
  match s.tCheckBuf with
  | none => some s
  | some buf =>
    match clearFrom buf 0 CONNECTION_CHECK_BUF_LENGTH with
    | none => none
    | some buf1 => some { s with tCheckBuf := some buf1 }

/-- The method `RotaryEncoder::BeginCheck(buf)`; `buf` is the contents of the buffer
the argument points to. -/
def BeginCheck (s : RotaryEncoder) (buf : List Nat) : Option RotaryEncoder :=
  RefreshCheck { s with tCheckBuf := some buf }

/-- A run of `CheckValue` calls, one per pair of pin reads, with the calls made to the
callback collected in order. -/
def poll : RotaryEncoder → List (Int × Int) → Option (RotaryEncoder × List DirectionCall)
  | s, [] => some (s, [])
  | s, (a, b) :: rest =>
    match CheckValue s a b with
    | none => none
    | some (s1, c1) =>
      match poll s1 rest with
      | none => none
      | some (s2, c2) => some (s2, c1 ++ c2)

end RotaryEncoder

/-! ## Timer.cpp -/

/-- Number of instances that can be used simultaneously (`MAX_INSTANCE`). -/
def MAX_INSTANCE : Nat := 1

/-- Instance operational status: stopping. -/
def STOP : Nat := 0

/-- Instance operational status: operating in multi-shot mode. -/
def START : Nat := 1

/-- Instance operational status: operating in single shot mode. -/
def ONCE : Nat := 2

/-- One element of the array `tAttaches`. -/
structure Attach where
  fCallBack : Option Nat
  lTimeMicroseconds : Nat
  lRemaining : Nat
  iMode : Nat
deriving DecidableEq

instance : Inhabited Attach := ⟨⟨none, 0, 0, STOP⟩⟩

/-- The file-scope variables of `Timer.cpp`: `iInstance`, the array `tAttaches`
(`MAX_INSTANCE` elements), and `setupRuns`, which counts how many times the register
writes of `SetupTimerOne` have been executed. -/
structure TimerGlobals where
  iInstance : Nat
  tAttaches : List Attach
  setupRuns : Nat
deriving DecidableEq

/-- The member of a `Timer` object (an `int16_t`, `-1` when no slot is owned). -/
structure Timer where
  m_AttachIndex : Int
deriving DecidableEq

/-- What each callback function does to the variables of `Timer.cpp` when it is
called (a callback may call the methods of any `Timer`). -/
abbrev CallbackEnv := Nat → TimerGlobals → TimerGlobals

namespace TimerGlobals

/-- The variables as initialised at program start. -/
def init : TimerGlobals :=
  { iInstance := 0
    tAttaches := [{ fCallBack := none, lTimeMicroseconds := 0, lRemaining := 0, iMode := STOP }]
    setupRuns := 0 }

/-- Read `tAttaches[i]`. -/
def slot (g : TimerGlobals) (i : Nat) : Attach := g.tAttaches.getD i default

/-- Write `tAttaches[i]`. -/
def setSlot (g : TimerGlobals) (i : Nat) (a : Attach) : TimerGlobals :=
  { g with tAttaches := g.tAttaches.set i a }

end TimerGlobals

/-- Conversion of a `uint16_t` value to `int16_t`. -/
def toInt16 (v : Nat) : Int :=
  if v % 2 ^ 16 < 2 ^ 15 then ((v % 2 ^ 16 : Nat) : Int) else ((v % 2 ^ 16 : Nat) : Int) - 2 ^ 16

/-- The function `SetupTimerOne`: returns at once when an instance exists, otherwise
writes the Timer1 registers. -/
def SetupTimerOne (g : TimerGlobals) : TimerGlobals :=
  if g.iInstance ≠ 0 then g
  else { g with setupRuns := g.setupRuns + 1 }

namespace Timer

/-- The constructor `Timer::Timer()`: the variables after it and the new object. -/
def new (g : TimerGlobals) : TimerGlobals × Timer :=
  let g1 := SetupTimerOne g
  if MAX_INSTANCE > g1.iInstance then
    let g2 := g1.setSlot g1.iInstance { g1.slot g1.iInstance with iMode := STOP }
    ({ g2 with iInstance := (g2.iInstance + 1) % 2 ^ 16 }, { m_AttachIndex := toInt16 g1.iInstance })
  else
    (g1, { m_AttachIndex := -1 })

/-- The method `Timer::attach_ms(millisecond, callBack)`. -/
def attach_ms (g : TimerGlobals) (t : Timer) (millisecond : Nat) (callBack : Option Nat) :
    TimerGlobals :=
  if 0 > t.m_AttachIndex then g
  else
    let i := t.m_AttachIndex.toNat
    let g1 := g.setSlot i { g.slot i with fCallBack := callBack }
    let g2 := g1.setSlot i { g1.slot i with lTimeMicroseconds := millisecond * 1000 % 2 ^ 32 / 100 }
    let g3 := g2.setSlot i { g2.slot i with lRemaining := millisecond * 1000 % 2 ^ 32 / 100 }
    g3.setSlot i { g3.slot i with iMode := START }

/-- The method `Timer::attach_us(microsecond, callBack)`. -/
def attach_us (g : TimerGlobals) (t : Timer) (microsecond : Nat) (callBack : Option Nat) :
    TimerGlobals :=
  if 0 > t.m_AttachIndex then g
  else
    let i := t.m_AttachIndex.toNat
    let g1 := g.setSlot i { g.slot i with fCallBack := callBack }
    let g2 := g1.setSlot i { g1.slot i with lTimeMicroseconds := microsecond / 100 }
    let g3 := g2.setSlot i { g2.slot i with lRemaining := microsecond / 100 }
    g3.setSlot i { g3.slot i with iMode := START }

/-- The method `Timer::once_ms(millisecond, callBack)`. -/
def once_ms (g : TimerGlobals) (t : Timer) (millisecond : Nat) (callBack : Option Nat) :
    TimerGlobals :=
  if 0 > t.m_AttachIndex then g
  else
    let i := t.m_AttachIndex.toNat
    let g1 := g.setSlot i { g.slot i with fCallBack := callBack }
    let g2 := g1.setSlot i { g1.slot i with lTimeMicroseconds := millisecond * 1000 % 2 ^ 32 / 100 }
    let g3 := g2.setSlot i { g2.slot i with lRemaining := millisecond * 1000 % 2 ^ 32 / 100 }
    g3.setSlot i { g3.slot i with iMode := ONCE }

/-- The method `Timer::once_us(microsecond, callBack)`. -/
def once_us (g : TimerGlobals) (t : Timer) (microsecond : Nat) (callBack : Option Nat) :
    TimerGlobals :=
  if 0 > t.m_AttachIndex then g
  else
    let i := t.m_AttachIndex.toNat
    let g1 := g.setSlot i { g.slot i with fCallBack := callBack }
    let g2 := g1.setSlot i { g1.slot i with lTimeMicroseconds := microsecond / 100 }
    let g3 := g2.setSlot i { g2.slot i with lRemaining := microsecond / 100 }
    g3.setSlot i { g3.slot i with iMode := ONCE }

/-- The method `Timer::detach()`. -/
def detach (g : TimerGlobals) (t : Timer) : TimerGlobals :=
  if 0 > t.m_AttachIndex then g
  else
    let i := t.m_AttachIndex.toNat
    let g1 := g.setSlot i { g.slot i with iMode := STOP }
    g1.setSlot i { g1.slot i with fCallBack := none }

/-- The destructor `Timer::~Timer()`. Its last statement `m_AttachIndex -1;` computes a
value and stores nothing. -/
def destroy (g : TimerGlobals) (t : Timer) : TimerGlobals :=
  if 0 > t.m_AttachIndex then g
  else
    let i := t.m_AttachIndex.toNat
    let g1 := g.setSlot i { g.slot i with iMode := STOP }
    g1.setSlot i { g1.slot i with fCallBack := none }

end Timer

/-- The body of the loop of `ISR (TIMER1_COMPA_vect)` for index `i`, on the variables
and the trace of callbacks called so far. -/
def isrSlot (env : CallbackEnv) (i : Nat) (st : TimerGlobals × List Nat) :
    TimerGlobals × List Nat :=
  let g := st.1
  match (g.slot i).fCallBack with
  | none => st
  | some f =>
    if (g.slot i).iMode ≠ STOP then
      -- tAttaches[i].lRemaining--
      let g1 := g.setSlot i { g.slot i with lRemaining := ((g.slot i).lRemaining + 2 ^ 32 - 1) % 2 ^ 32 }
      if (g1.slot i).lRemaining = 0 then
        -- tAttaches[i].fCallBack()
        let g2 := env f g1
        let g3 := if (g2.slot i).iMode = ONCE then g2.setSlot i { g2.slot i with iMode := STOP } else g2
        let g4 := g3.setSlot i { g3.slot i with lRemaining := (g3.slot i).lTimeMicroseconds }
        (g4, st.2 ++ [f])
      else (g1, st.2)
    else st

/-- The interrupt handler `ISR (TIMER1_COMPA_vect)`: one tick pass over all slots.
Returns the variables after the pass and the callbacks called, in order. -/
def ISR_TIMER1_COMPA (env : CallbackEnv) (g : TimerGlobals) : TimerGlobals × List Nat :=
  (List.range MAX_INSTANCE).foldl (fun st i => isrSlot env i st) (g, [])

/-- The effect of `n` consecutive tick passes: the variables after them and all the
callbacks called, in order. -/
def ticks (env : CallbackEnv) : Nat → TimerGlobals → TimerGlobals × List Nat
  | 0, g => (g, [])
  | n + 1, g =>
    let r := ISR_TIMER1_COMPA env g
    let r2 := ticks env n r.1
    (r2.1, r.2 ++ r2.2)

/-! ## Notions the claims refer to -/

/-- The calls `CheckValue` makes for callback pointer `cb`, direction `d` and sample
`iNow`. -/
def callsFor (cb : Option Nat) (d : Int) (iNow : Nat) : List DirectionCall :=
  match cb with
  | some f => if d ≠ 0 then [⟨f, d, iNow⟩] else []
  | none => []

/-- The states in which `CheckValue` stays inside its arrays: `iOld` is a two-bit
value and an installed buffer has at least `CONNECTION_CHECK_BUF_LENGTH` elements. -/
def RotaryEncoder.WellFormed (s : RotaryEncoder) : Prop :=
  s.iOld < 4 ∧
    match s.tCheckBuf with
    | none => True
    | some buf => CONNECTION_CHECK_BUF_LENGTH ≤ buf.length

instance (s : RotaryEncoder) : Decidable s.WellFormed := by
  unfold RotaryEncoder.WellFormed
  cases s.tCheckBuf <;> exact inferInstance

/-- The decoder objects a program can reach: built by the constructor and then
driven through `CheckValue`, `BeginCheck` and `RefreshCheck`. -/
inductive RotaryEncoder.Reachable : RotaryEncoder → Prop
  | construct (ioA ioB : Nat) (f : Option Nat) (readA readB : Int) :
      Reachable (RotaryEncoder.new ioA ioB f readA readB)
  | checkValue (s s1 : RotaryEncoder) (readA readB : Int) (calls : List DirectionCall) :
      Reachable s → s.CheckValue readA readB = some (s1, calls) → Reachable s1
  | beginCheck (s s1 : RotaryEncoder) (buf : List Nat) :
      Reachable s → s.BeginCheck buf = some s1 → Reachable s1
  | refreshCheck (s s1 : RotaryEncoder) :
      Reachable s → s.RefreshCheck = some s1 → Reachable s1

/-- The pin reads that give the samples 1, 3, 2, 0, one turn of the cycle. -/
def oneTurn : List (Int × Int) := [(0, 1), (1, 1), (1, 0), (0, 0)]

/-- The pin reads of `n` turns of the cycle 1, 3, 2, 0. -/
def turns : Nat → List (Int × Int)
  | 0 => []
  | n + 1 => oneTurn ++ turns n

/-- The array `tAttaches` has its `MAX_INSTANCE` elements. -/
def TimerGlobals.WellFormed (g : TimerGlobals) : Prop :=
  g.tAttaches.length = MAX_INSTANCE

instance (g : TimerGlobals) : Decidable g.WellFormed := by
  unfold TimerGlobals.WellFormed
  exact inferInstance

/-- The handle owns a slot: its index is a valid index into `tAttaches`. -/
def Timer.OwnsSlot (t : Timer) : Prop :=
  0 ≤ t.m_AttachIndex ∧ t.m_AttachIndex.toNat < MAX_INSTANCE

instance (t : Timer) : Decidable t.OwnsSlot := by
  unfold Timer.OwnsSlot
  exact inferInstance

/-- Construct `n` handles one after the other: the variables afterwards and the handles,
first constructed first. -/
def constructMany : Nat → TimerGlobals → TimerGlobals × List Timer
  | 0, g => (g, [])
  | n + 1, g =>
    let r := Timer.new g
    let r2 := constructMany n r.1
    (r2.1, r.2 :: r2.2)

/-- A callback environment in which no callback touches the variables of `Timer.cpp`. -/
def quietEnv : CallbackEnv := fun _ g => g

/-- The variables after the first handle is constructed at program start and a one-shot
period of 50 microseconds, shorter than one tick, is attached to it with callback 7. -/
def shortOnce : TimerGlobals :=
  Timer.once_us (Timer.new TimerGlobals.init).1 (Timer.new TimerGlobals.init).2 50 (some 7)

/-- The successor of a state in the cycle 0 -> 1 -> 3 -> 2 -> 0 the claims refer to. -/
def grayNext : Nat → Nat
  | 0 => 1
  | 1 => 3
  | 3 => 2
  | _ => 0

/-- One operation of a program on the timers. Handles are named by their position in
the order of construction. -/
inductive TimerOp where
  | construct
  | attach_ms (h v : Nat) (cb : Option Nat)
  | attach_us (h v : Nat) (cb : Option Nat)
  | once_ms (h v : Nat) (cb : Option Nat)
  | once_us (h v : Nat) (cb : Option Nat)
  | detach (h : Nat)
  | destroy (h : Nat)
  | tick
deriving DecidableEq

/-- The operation is a construction. -/
def TimerOp.isConstruct : TimerOp → Bool
  | .construct => true
  | _ => false

/-- The operation is a construction or a destruction. -/
def TimerOp.isLifecycle : TimerOp → Bool
  | .construct => true
  | .destroy _ => true
  | _ => false

/-- Apply a method to handle number `h`, or do nothing when no such handle has been
constructed. -/
def onHandle (w : TimerGlobals × List Timer) (h : Nat)
    (method : TimerGlobals → Timer → TimerGlobals) : TimerGlobals × List Timer :=
  match w.2[h]? with
  | some t => (method w.1 t, w.2)
  | none => w

/-- One operation on the variables of `Timer.cpp` and the handles constructed so far.
A destroyed handle keeps its place in the list. -/
def stepOp (env : CallbackEnv) (w : TimerGlobals × List Timer) :
    TimerOp → TimerGlobals × List Timer
  | .construct => ((Timer.new w.1).1, w.2 ++ [(Timer.new w.1).2])
  | .attach_ms h v cb => onHandle w h (fun g t => Timer.attach_ms g t v cb)
  | .attach_us h v cb => onHandle w h (fun g t => Timer.attach_us g t v cb)
  | .once_ms h v cb => onHandle w h (fun g t => Timer.once_ms g t v cb)
  | .once_us h v cb => onHandle w h (fun g t => Timer.once_us g t v cb)
  | .detach h => onHandle w h Timer.detach
  | .destroy h => onHandle w h Timer.destroy
  | .tick => ((ISR_TIMER1_COMPA env w.1).1, w.2)

/-- A sequence of operations, first one first. -/
def runOps (env : CallbackEnv) (w : TimerGlobals × List Timer) (ops : List TimerOp) :
    TimerGlobals × List Timer :=
  ops.foldl (stepOp env) w

/-- The world at program start: the variables as initialised and no handle. -/
def startWorld : TimerGlobals × List Timer := (TimerGlobals.init, [])

/-- The tick pass on one slot as the specification words it (callbacks that leave the
timer variables alone): a slot that is stopped or has no callback is left as it is;
otherwise the remaining count is decremented, and when it reaches zero the callback
is called, then a one-shot slot is stopped and only a slot in another mode is
reloaded. Returns the slot afterwards and the callbacks called. -/
def specTickSlot (a : Attach) : Attach × List Nat :=
  match a.fCallBack with
  | none => (a, [])
  | some f =>
    if a.iMode = STOP then (a, [])
    else if (a.lRemaining + 2 ^ 32 - 1) % 2 ^ 32 = 0 then
      if a.iMode = ONCE then
        ({ a with lRemaining := (a.lRemaining + 2 ^ 32 - 1) % 2 ^ 32, iMode := STOP }, [f])
      else ({ a with lRemaining := a.lTimeMicroseconds }, [f])
    else ({ a with lRemaining := (a.lRemaining + 2 ^ 32 - 1) % 2 ^ 32 }, [])

/-- The tick pass on one slot as amended: as `specTickSlot`, except that a one-shot slot
that fires is reloaded as well. -/
def reloadingTickSlot (a : Attach) : Attach × List Nat :=
  match a.fCallBack with
  | none => (a, [])
  | some f =>
    if a.iMode = STOP then (a, [])
    else if (a.lRemaining + 2 ^ 32 - 1) % 2 ^ 32 = 0 then
      if a.iMode = ONCE then ({ a with lRemaining := a.lTimeMicroseconds, iMode := STOP }, [f])
      else ({ a with lRemaining := a.lTimeMicroseconds }, [f])
    else ({ a with lRemaining := (a.lRemaining + 2 ^ 32 - 1) % 2 ^ 32 }, [])

/-- The position of a state in the cycle 0 -> 1 -> 3 -> 2 -> 0: the states 0, 1, 3, 2 are
at positions 0, 1, 2, 3. -/
def grayPos : Nat → Int
  | 0 => 0
  | 1 => 1
  | 3 => 2
  | _ => 3

/-- No step of the walk that starts at state `p` and goes through the samples of the
pin reads flips both bits. -/
def noDoubleFlip : Nat → List (Int × Int) → Bool
  | _, [] => true
  | p, r :: rest =>
    (p ^^^ packSample r.1 r.2 != 3) && noDoubleFlip (packSample r.1 r.2) rest

/-- The sum of the arguments of a list of callback calls. -/
def netCount (calls : List DirectionCall) : Int :=
  (calls.map (fun c => c.arg)).sum

/-- The number of pin reads in the list whose packed sample is `i`. -/
def sampleCount (i : Nat) (reads : List (Int × Int)) : Nat :=
  (reads.map (fun r => packSample r.1 r.2)).count i

/-- The last sample of the pin reads, or the state `p` the walk starts from when there
is no read. -/
def lastSample : Nat → List (Int × Int) → Nat
  | p, [] => p
  | _, r :: rest => lastSample (packSample r.1 r.2) rest

/-- The tick pass as amended, for callbacks of any behaviour: a slot that is stopped or
has no callback is left as it is; otherwise the remaining count is decremented, and
when it reaches zero the callback is called once and then, on the slot as the callback
left it, a one-shot slot is stopped, a slot in another mode keeps it, and in both cases
the remaining count is reloaded from the period. Returns the variables afterwards and
the callbacks called. -/
def reloadingTick (env : CallbackEnv) (g : TimerGlobals) : TimerGlobals × List Nat :=
  match (g.slot 0).fCallBack with
  | none => (g, [])
  | some f =>
    if (g.slot 0).iMode = STOP then (g, [])
    else if ((g.slot 0).lRemaining + 2 ^ 32 - 1) % 2 ^ 32 = 0 then
      let afterCall := env f (g.setSlot 0 { g.slot 0 with lRemaining := 0 })
      (afterCall.setSlot 0
        { afterCall.slot 0 with
          iMode := if (afterCall.slot 0).iMode = ONCE then STOP else (afterCall.slot 0).iMode
          lRemaining := (afterCall.slot 0).lTimeMicroseconds }, [f])
    else
      (g.setSlot 0
        { g.slot 0 with lRemaining := ((g.slot 0).lRemaining + 2 ^ 32 - 1) % 2 ^ 32 }, [])

/-- A callback environment in which every callback calls `detach()` on the handle with
index 0. -/
def detachingEnv : CallbackEnv := fun _ g => Timer.detach g ⟨0⟩

/-! ## Basic facts about the decoder -/

theorem lowBit_lt (v : Int) : lowBit v < 2 := by
  unfold lowBit
  have h1 : 0 ≤ v % 2 := Int.emod_nonneg v (by decide)
  have h2 : v % 2 < 2 := Int.emod_lt_of_pos v (by decide)
  omega

theorem packSample_lt (readA readB : Int) : packSample readA readB < 4 := by
  unfold packSample
  have ha := lowBit_lt readA
  have hb := lowBit_lt readB
  generalize lowBit readA = x at ha
  generalize lowBit readB = y at hb
  interval_cases x <;> interval_cases y <;> decide

theorem tableIndex_eq (iOld iNow : Nat) (ho : iOld < 4) (hn : iNow < 4) :
    RotaryEncoder.tableIndex iOld iNow = iOld * 4 + iNow := by
  interval_cases iOld <;> interval_cases iNow <;> decide

theorem iMutations_entry (iOld iNow : Nat) (ho : iOld < 4) (hn : iNow < 4) :
    ∃ d, iMutations[RotaryEncoder.tableIndex iOld iNow]? = some d ∧ (d = 0 ∨ d = 1 ∨ d = -1) := by
  interval_cases iOld <;> interval_cases iNow <;> decide

theorem CheckValue_noBuf (s : RotaryEncoder) (readA readB : Int) (d : Int)
    (hd : iMutations[RotaryEncoder.tableIndex s.iOld (packSample readA readB)]? = some d)
    (hb : s.tCheckBuf = none) :
    s.CheckValue readA readB =
      some ({ s with iOld := packSample readA readB },
        callsFor s.fCallback d (packSample readA readB)) := by
  unfold RotaryEncoder.CheckValue
  simp only [hd, hb, callsFor]

theorem CheckValue_buf (s : RotaryEncoder) (readA readB : Int) (d : Int) (buf : List Nat)
    (c : Nat)
    (hd : iMutations[RotaryEncoder.tableIndex s.iOld (packSample readA readB)]? = some d)
    (hb : s.tCheckBuf = some buf) (hc : buf[packSample readA readB]? = some c) :
    s.CheckValue readA readB =
      some ({ s with iOld := packSample readA readB,
                     tCheckBuf := some (buf.set (packSample readA readB) ((c + 1) % 2 ^ 16)) },
        callsFor s.fCallback d (packSample readA readB)) := by
  unfold RotaryEncoder.CheckValue
  simp only [hd, hb, hc, callsFor]

theorem CheckValue_step (s : RotaryEncoder) (readA readB : Int) (hs : s.WellFormed) :
    ∃ s1 d, iMutations[RotaryEncoder.tableIndex s.iOld (packSample readA readB)]? = some d ∧
      (d = 0 ∨ d = 1 ∨ d = -1) ∧
      s.CheckValue readA readB = some (s1, callsFor s.fCallback d (packSample readA readB)) ∧
      s1.iOld = packSample readA readB ∧ s1.fCallback = s.fCallback ∧ s1.WellFormed ∧
      (s.tCheckBuf = none → s1.tCheckBuf = none) ∧
      (∀ buf, s.tCheckBuf = some buf →
        s1.tCheckBuf = some (buf.set (packSample readA readB)
          ((buf.getD (packSample readA readB) 0 + 1) % 2 ^ 16))) := by
  obtain ⟨hOld, hBuf⟩ := hs
  have hn := packSample_lt readA readB
  obtain ⟨d, hd, hd3⟩ := iMutations_entry s.iOld (packSample readA readB) hOld hn
  cases hb : s.tCheckBuf with
  | none =>
    refine ⟨_, d, hd, hd3, CheckValue_noBuf s readA readB d hd hb, rfl, rfl, ?_, ?_, ?_⟩
    · exact ⟨hn, by simp [hb]⟩
    · intro _; exact hb
    · intro buf h; simp at h
  | some buf =>
    rw [hb] at hBuf
    simp only [CONNECTION_CHECK_BUF_LENGTH] at hBuf
    have hlt : packSample readA readB < buf.length := by omega
    have hc : buf[packSample readA readB]? = some (buf.getD (packSample readA readB) 0) := by
      simp [List.getD, List.getElem?_eq_getElem hlt]
    refine ⟨_, d, hd, hd3, CheckValue_buf s readA readB d buf _ hd hb hc, rfl, rfl, ?_, ?_, ?_⟩
    · exact ⟨hn, by simp [CONNECTION_CHECK_BUF_LENGTH]; omega⟩
    · intro h; simp at h
    · intro buf1 h
      simp at h
      subst h
      rfl

/-! ## Theorems: the transition table -/

/-- C1: for previous and current in 0..3, entry `previous * 4 + current` of
`iMutations` is 0 on the diagonal, 0 when both bits differ, +1 when current is the
successor of previous in the cycle 0 -> 1 -> 3 -> 2 -> 0 and -1 when it is the
predecessor. -/
theorem iMutations_table (previous current : Nat) (hp : previous < 4) (hc : current < 4) :
    (previous = current → iMutations[previous * 4 + current]? = some 0) ∧
    (previous ^^^ current = 3 → iMutations[previous * 4 + current]? = some 0) ∧
    (current = grayNext previous → iMutations[previous * 4 + current]? = some 1) ∧
    (previous = grayNext current → iMutations[previous * 4 + current]? = some (-1)) := by
  interval_cases previous <;> interval_cases current <;> decide

theorem iMutations_table_witness :
    (0 = 1 → iMutations[0 * 4 + 1]? = some 0) ∧
    (0 ^^^ 1 = 3 → iMutations[0 * 4 + 1]? = some 0) ∧
    (1 = grayNext 0 → iMutations[0 * 4 + 1]? = some 1) ∧
    (0 = grayNext 1 → iMutations[0 * 4 + 1]? = some (-1)) :=
  iMutations_table 0 1 (by decide) (by decide)

/-! ## Theorems: reachable decoder states -/

theorem clearFrom_some (n : Nat) : ∀ (buf : List Nat) (i : Nat) (buf1 : List Nat),
    RotaryEncoder.clearFrom buf i n = some buf1 →
      buf1.length = buf.length ∧ (0 < n → i + n ≤ buf.length) := by
  induction n with
  | zero =>
    intro buf i buf1 h
    simp [RotaryEncoder.clearFrom] at h
    subst h
    simp
  | succ n ih =>
    intro buf i buf1 h
    unfold RotaryEncoder.clearFrom at h
    split at h
    · rename_i hlt
      obtain ⟨h1, h2⟩ := ih _ _ _ h
      simp only [List.length_set] at h1 h2
      refine ⟨h1, fun _ => ?_⟩
      rcases Nat.eq_zero_or_pos n with h0 | hpos
      · omega
      · have := h2 hpos
        omega
    · simp at h

theorem RefreshCheck_wellFormed (s s1 : RotaryEncoder) (hOld : s.iOld < 4)
    (h : s.RefreshCheck = some s1) : s1.WellFormed ∧ s1.iOld = s.iOld := by
  unfold RotaryEncoder.RefreshCheck at h
  cases hb : s.tCheckBuf with
  | none =>
    simp only [hb] at h
    simp at h
    subst h
    exact ⟨⟨hOld, by simp [hb]⟩, rfl⟩
  | some buf =>
    simp only [hb] at h
    cases hc : RotaryEncoder.clearFrom buf 0 CONNECTION_CHECK_BUF_LENGTH with
    | none => simp [hc] at h
    | some buf1 =>
      simp only [hc] at h
      simp at h
      subst h
      obtain ⟨h1, h2⟩ := clearFrom_some _ _ _ _ hc
      have h3 := h2 (by decide)
      refine ⟨⟨hOld, ?_⟩, rfl⟩
      simp only
      omega

theorem Reachable_wellFormed (s : RotaryEncoder) (h : s.Reachable) : s.WellFormed := by
  induction h with
  | construct ioA ioB f readA readB =>
    exact ⟨packSample_lt readA readB, by simp [RotaryEncoder.new]⟩
  | checkValue s s1 readA readB calls _ hstep ih =>
    obtain ⟨s2, d, _, _, hcv, _, _, hwf, _⟩ := CheckValue_step s readA readB ih
    rw [hcv] at hstep
    simp at hstep
    rw [← hstep.1]
    exact hwf
  | beginCheck s s1 buf _ hstep ih =>
    exact (RefreshCheck_wellFormed { s with tCheckBuf := some buf } s1 ih.1 hstep).1
  | refreshCheck s s1 _ hstep ih =>
    exact (RefreshCheck_wellFormed s s1 ih.1 hstep).1

theorem CheckValue_forward (s : RotaryEncoder) (f : Nat) (readA readB : Int)
    (hs : s.WellFormed) (hcb : s.fCallback = some f)
    (hd : iMutations[RotaryEncoder.tableIndex s.iOld (packSample readA readB)]? = some 1) :
    ∃ s1, s.CheckValue readA readB = some (s1, [⟨f, 1, packSample readA readB⟩]) ∧
      s1.iOld = packSample readA readB ∧ s1.fCallback = some f ∧ s1.WellFormed := by
  obtain ⟨s1, d, hd1, _, hcv, hOld, hf, hwf, _⟩ := CheckValue_step s readA readB hs
  rw [hd] at hd1
  simp at hd1
  subst hd1
  refine ⟨s1, ?_, hOld, hf.trans hcb, hwf⟩
  rw [hcv, hcb]
  simp [callsFor]

theorem poll_oneTurn (s : RotaryEncoder) (f : Nat) (hs : s.WellFormed) (h0 : s.iOld = 0)
    (hcb : s.fCallback = some f) :
    ∃ s4 : RotaryEncoder, s4.WellFormed ∧ s4.iOld = 0 ∧ s4.fCallback = some f ∧
      ∀ rest, s.poll (oneTurn ++ rest) =
        (s4.poll rest).map
          (fun r => (r.1, [⟨f, 1, 1⟩, ⟨f, 1, 3⟩, ⟨f, 1, 2⟩, ⟨f, 1, 0⟩] ++ r.2)) := by
  have p1 : packSample 0 1 = 1 := by decide
  have p2 : packSample 1 1 = 3 := by decide
  have p3 : packSample 1 0 = 2 := by decide
  have p4 : packSample 0 0 = 0 := by decide
  obtain ⟨s1, e1, o1, f1, w1⟩ := CheckValue_forward s f 0 1 hs hcb (by rw [h0, p1]; decide)
  obtain ⟨s2, e2, o2, f2, w2⟩ := CheckValue_forward s1 f 1 1 w1 f1 (by rw [o1, p1, p2]; decide)
  obtain ⟨s3, e3, o3, f3, w3⟩ := CheckValue_forward s2 f 1 0 w2 f2 (by rw [o2, p2, p3]; decide)
  obtain ⟨s4, e4, o4, f4, w4⟩ := CheckValue_forward s3 f 0 0 w3 f3 (by rw [o3, p3, p4]; decide)
  refine ⟨s4, w4, o4.trans p4, f4, fun rest => ?_⟩
  show s.poll ((0, 1) :: (1, 1) :: (1, 0) :: (0, 0) :: rest) = _
  simp only [RotaryEncoder.poll, e1, e2, e3, e4, p1, p2, p3, p4]
  generalize s4.poll rest = q
  cases q with
  | none => rfl
  | some r =>
    obtain ⟨r1, r2⟩ := r
    rfl

/-! ## Theorems: polling the decoder -/

/-- C2: in a well-formed decoder state with a registered callback `f`, one call of
`CheckValue` returns, and with `d` the table entry for (previous state, current
sample): when `d` is nonzero the callback is called exactly once, with argument `d`;
when `d` is zero it is not called; every argument passed is +1 or -1. -/
theorem CheckValue_callback_iff_direction (s : RotaryEncoder) (readA readB : Int) (f : Nat)
    (hs : s.WellFormed) (hcb : s.fCallback = some f) :
    ∃ s1 calls d,
      s.CheckValue readA readB = some (s1, calls) ∧
      iMutations[RotaryEncoder.tableIndex s.iOld (packSample readA readB)]? = some d ∧
      (d ≠ 0 → calls.map (fun c => (c.fn, c.arg)) = [(f, d)]) ∧
      (d = 0 → calls = []) ∧
      (∀ c ∈ calls, c.arg = d ∧ (c.arg = 1 ∨ c.arg = -1)) := by
  obtain ⟨s1, d, hd, hd3, hcv, _⟩ := CheckValue_step s readA readB hs
  refine ⟨s1, _, d, hcv, hd, ?_, ?_, ?_⟩
  · intro hne
    simp [callsFor, hcb, hne]
  · intro h0
    simp [callsFor, hcb, h0]
  · intro c hc
    by_cases h0 : d = 0
    · simp [callsFor, hcb, h0] at hc
    · simp [callsFor, hcb, h0] at hc
      subst hc
      refine ⟨rfl, ?_⟩
      simp only
      tauto

theorem CheckValue_callback_iff_direction_witness :
    ∃ s1 calls d,
      (RotaryEncoder.new 2 3 (some 7) 0 0).CheckValue 0 1 = some (s1, calls) ∧
      iMutations[RotaryEncoder.tableIndex (RotaryEncoder.new 2 3 (some 7) 0 0).iOld
        (packSample 0 1)]? = some d ∧
      (d ≠ 0 → calls.map (fun c => (c.fn, c.arg)) = [(7, d)]) ∧
      (d = 0 → calls = []) ∧
      (∀ c ∈ calls, c.arg = d ∧ (c.arg = 1 ∨ c.arg = -1)) :=
  CheckValue_callback_iff_direction (RotaryEncoder.new 2 3 (some 7) 0 0) 0 1 7
    (by decide) (by decide)

/-- C3: in a well-formed decoder state with a connection-check buffer installed, one
call of `CheckValue` returns and leaves a buffer of the same length in which the
counter at the index of the current sample is one more than before, modulo 2^16,
and every other counter is as before, whatever the direction computed; for pin
reads that are 0 or 1 the index of the current sample is `(A << 1) | B`. -/
theorem CheckValue_counts_sample (s : RotaryEncoder) (readA readB : Int) (buf : List Nat)
    (hs : s.WellFormed) (hb : s.tCheckBuf = some buf) :
    ∃ s1 calls buf1,
      s.CheckValue readA readB = some (s1, calls) ∧ s1.tCheckBuf = some buf1 ∧
      buf1.length = buf.length ∧
      buf1[packSample readA readB]? =
        some ((buf.getD (packSample readA readB) 0 + 1) % 2 ^ 16) ∧
      (∀ i, i ≠ packSample readA readB → buf1[i]? = buf[i]?) ∧
      ((readA = 0 ∨ readA = 1) → (readB = 0 ∨ readB = 1) →
        packSample readA readB = (readA.toNat <<< 1) ||| readB.toNat) := by
  obtain ⟨s1, d, _, _, hcv, _, _, _, _, hbuf⟩ := CheckValue_step s readA readB hs
  have hlen : packSample readA readB < buf.length := by
    have h4 := hs.2
    rw [hb] at h4
    simp only [CONNECTION_CHECK_BUF_LENGTH] at h4
    have := packSample_lt readA readB
    omega
  refine ⟨s1, _, _, hcv, hbuf buf hb, by simp, ?_, ?_, ?_⟩
  · simp [List.getElem?_set, hlen]
  · intro i hi
    simp [List.getElem?_set, Ne.symm hi]
  · intro ha hb
    rcases ha with ha | ha <;> rcases hb with hb | hb <;> subst ha <;> subst hb <;> decide

theorem CheckValue_counts_sample_witness :
    ∃ s1 calls buf1,
      ({ RotaryEncoder.new 2 3 (some 7) 0 0 with tCheckBuf := some [5, 65535, 0, 9] }
        : RotaryEncoder).CheckValue 0 1 = some (s1, calls) ∧
      s1.tCheckBuf = some buf1 ∧
      buf1.length = [5, 65535, 0, 9].length ∧
      buf1[packSample 0 1]? = some ((([5, 65535, 0, 9] : List Nat).getD (packSample 0 1) 0 + 1) % 2 ^ 16) ∧
      (∀ i, i ≠ packSample 0 1 → buf1[i]? = ([5, 65535, 0, 9] : List Nat)[i]?) ∧
      (((0 : Int) = 0 ∨ (0 : Int) = 1) → ((1 : Int) = 0 ∨ (1 : Int) = 1) →
        packSample 0 1 = ((0 : Int).toNat <<< 1) ||| (1 : Int).toNat) :=
  CheckValue_counts_sample
    { RotaryEncoder.new 2 3 (some 7) 0 0 with tCheckBuf := some [5, 65535, 0, 9] } 0 1
    [5, 65535, 0, 9] (by decide) rfl

/-- C4: every reachable decoder state has `iOld` in 0..3 (the constructor
establishes it for arbitrary pin reads); in such a state `CheckValue` returns for
arbitrary integer pin reads, leaves `iOld` equal to the packed sample
`((A & 1) << 1) | (B & 1)`, again in 0..3, and every callback call it makes is made
when `iOld` already holds that new value. -/
theorem iOld_two_bits (s : RotaryEncoder) (h : s.Reachable) :
    s.iOld < 4 ∧
    (∀ (ioA ioB : Nat) (f : Option Nat) (readA readB : Int),
      (RotaryEncoder.new ioA ioB f readA readB).iOld < 4) ∧
    ∀ readA readB : Int, ∃ s1 calls,
      s.CheckValue readA readB = some (s1, calls) ∧
      s1.iOld = packSample readA readB ∧ s1.iOld < 4 ∧
      ∀ c ∈ calls, c.iOldAtCall = s1.iOld := by
  have hs := Reachable_wellFormed s h
  refine ⟨hs.1, fun _ _ _ readA readB => packSample_lt readA readB, fun readA readB => ?_⟩
  obtain ⟨s1, d, _, _, hcv, hOld, _, hwf, _⟩ := CheckValue_step s readA readB hs
  refine ⟨s1, _, hcv, hOld, hwf.1, ?_⟩
  intro c hc
  rw [hOld]
  unfold callsFor at hc
  split at hc
  · split at hc
    · simp at hc
      rw [hc]
    · simp at hc
  · simp at hc

theorem iOld_two_bits_witness :
    (RotaryEncoder.new 2 3 (some 7) 1 0).iOld < 4 ∧
    (∀ (ioA ioB : Nat) (f : Option Nat) (readA readB : Int),
      (RotaryEncoder.new ioA ioB f readA readB).iOld < 4) ∧
    ∀ readA readB : Int, ∃ s1 calls,
      (RotaryEncoder.new 2 3 (some 7) 1 0).CheckValue readA readB = some (s1, calls) ∧
      s1.iOld = packSample readA readB ∧ s1.iOld < 4 ∧
      ∀ c ∈ calls, c.iOldAtCall = s1.iOld :=
  iOld_two_bits (RotaryEncoder.new 2 3 (some 7) 1 0)
    (RotaryEncoder.Reachable.construct 2 3 (some 7) 1 0)

theorem iMutations_diagonal (i : Nat) (hi : i < 4) :
    iMutations[RotaryEncoder.tableIndex i i]? = some 0 := by
  interval_cases i <;> decide

theorem poll_turns_aux (f : Nat) (n : Nat) : ∀ s : RotaryEncoder,
    s.WellFormed → s.iOld = 0 → s.fCallback = some f →
    ∃ s1 calls, s.poll (turns n) = some (s1, calls) ∧
      calls.map (fun c => (c.fn, c.arg)) = List.replicate (4 * n) (f, 1) ∧ s1.iOld = 0 := by
  induction n with
  | zero =>
    intro s _ h0 _
    exact ⟨s, [], rfl, rfl, h0⟩
  | succ n ih =>
    intro s hs h0 hcb
    obtain ⟨s4, w4, o4, f4, hrun⟩ := poll_oneTurn s f hs h0 hcb
    obtain ⟨s5, calls, hp, hmap, o5⟩ := ih s4 w4 o4 f4
    refine ⟨s5, [⟨f, 1, 1⟩, ⟨f, 1, 3⟩, ⟨f, 1, 2⟩, ⟨f, 1, 0⟩] ++ calls, ?_, ?_, o5⟩
    · show s.poll (oneTurn ++ turns n) = _
      rw [hrun, hp]
      rfl
    · simp only [List.map_append, List.map_cons, List.map_nil, hmap]
      rw [show 4 * (n + 1) = 4 + 4 * n by ring, List.replicate_add]
      rfl

/-- C5: from a well-formed state with `iOld = 0` and callback `f`, polling the samples
1, 3, 2, 0 repeated `n` times returns with exactly `4 * n` callback calls, each of
them `f(+1)`; and in any well-formed state a poll whose sample equals `iOld` makes
no call. -/
theorem poll_turns_calls (s : RotaryEncoder) (f : Nat) (n : Nat)
    (hs : s.WellFormed) (h0 : s.iOld = 0) (hcb : s.fCallback = some f) :
    (∃ s1 calls, s.poll (turns n) = some (s1, calls) ∧
      calls.map (fun c => (c.fn, c.arg)) = List.replicate (4 * n) (f, 1) ∧
      calls.length = 4 * n ∧ s1.iOld = 0) ∧
    (turns n).map (fun r => packSample r.1 r.2) = (List.replicate n [1, 3, 2, 0]).flatten ∧
    (∀ (t : RotaryEncoder) (readA readB : Int), t.WellFormed →
      packSample readA readB = t.iOld → ∃ t1, t.CheckValue readA readB = some (t1, [])) := by
  refine ⟨?_, ?_, ?_⟩
  · obtain ⟨s1, calls, hp, hmap, o1⟩ := poll_turns_aux f n s hs h0 hcb
    refine ⟨s1, calls, hp, hmap, ?_, o1⟩
    have := congrArg List.length hmap
    simpa using this
  · induction n with
    | zero => rfl
    | succ n ih =>
      show (oneTurn ++ turns n).map _ = _
      rw [List.map_append, ih, List.replicate_succ, List.flatten_cons]
      rfl
  · intro t readA readB ht hsame
    obtain ⟨t1, d, hd, _, hcv, _⟩ := CheckValue_step t readA readB ht
    rw [hsame, iMutations_diagonal t.iOld ht.1] at hd
    simp at hd
    subst hd
    refine ⟨t1, ?_⟩
    rw [hcv]
    cases t.fCallback <;> simp [callsFor]

theorem poll_turns_calls_witness :
    (∃ s1 calls, (RotaryEncoder.new 2 3 (some 7) 0 0).poll (turns 2) = some (s1, calls) ∧
      calls.map (fun c => (c.fn, c.arg)) = List.replicate (4 * 2) (7, 1) ∧
      calls.length = 4 * 2 ∧ s1.iOld = 0) ∧
    (turns 2).map (fun r => packSample r.1 r.2) = (List.replicate 2 [1, 3, 2, 0]).flatten ∧
    (∀ (t : RotaryEncoder) (readA readB : Int), t.WellFormed →
      packSample readA readB = t.iOld → ∃ t1, t.CheckValue readA readB = some (t1, [])) :=
  poll_turns_calls (RotaryEncoder.new 2 3 (some 7) 0 0) 7 2 (by decide) (by decide) (by decide)

/-! ## Basic facts about the tick handler -/

theorem ownsSlot_index (t : Timer) (h : t.OwnsSlot) : t.m_AttachIndex = 0 := by
  obtain ⟨h1, h2⟩ := h
  simp only [MAX_INSTANCE] at h2
  omega

theorem wellFormed_table (g : TimerGlobals) (h : g.WellFormed) : ∃ a, g.tAttaches = [a] := by
  unfold TimerGlobals.WellFormed at h
  simp only [MAX_INSTANCE] at h
  match hg : g.tAttaches, h with
  | [a], _ => exact ⟨a, rfl⟩

theorem ISR_idle (env : CallbackEnv) (g : TimerGlobals) (a : Attach) (h : g.tAttaches = [a])
    (hidle : a.fCallBack = none ∨ a.iMode = STOP) : ISR_TIMER1_COMPA env g = (g, []) := by
  have hs : g.slot 0 = a := by simp [TimerGlobals.slot, h]
  simp only [ISR_TIMER1_COMPA, MAX_INSTANCE, List.range_succ, List.range_zero, List.nil_append,
    List.foldl_cons, List.foldl_nil, isrSlot, hs]
  rcases hidle with h1 | h1
  · simp [h1]
  · cases hf : a.fCallBack <;> simp [h1]

theorem ISR_count (env : CallbackEnv) (g : TimerGlobals) (a : Attach) (f : Nat)
    (h : g.tAttaches = [a]) (hf : a.fCallBack = some f) (hm : a.iMode ≠ STOP)
    (hr : (a.lRemaining + 2 ^ 32 - 1) % 2 ^ 32 ≠ 0) :
    ISR_TIMER1_COMPA env g =
      ({ g with tAttaches := [{ a with lRemaining := (a.lRemaining + 2 ^ 32 - 1) % 2 ^ 32 }] },
        []) := by
  have hs : g.slot 0 = a := by simp [TimerGlobals.slot, h]
  simp only [ISR_TIMER1_COMPA, MAX_INSTANCE, List.range_succ, List.range_zero, List.nil_append,
    List.foldl_cons, List.foldl_nil, isrSlot, hs, hf]
  have hr1 : ¬ (a.lRemaining + 4294967295) % 4294967296 = 0 := by omega
  simp [hm, TimerGlobals.setSlot, TimerGlobals.slot, h, hr1]

theorem ISR_fire (env : CallbackEnv) (g : TimerGlobals) (a : Attach) (f : Nat)
    (h : g.tAttaches = [a]) (hf : a.fCallBack = some f) (hm : a.iMode ≠ STOP)
    (hr : (a.lRemaining + 2 ^ 32 - 1) % 2 ^ 32 = 0) (henv : ∀ x, env f x = x) :
    ISR_TIMER1_COMPA env g =
      ({ g with tAttaches :=
          [{ a with iMode := if a.iMode = ONCE then STOP else a.iMode,
                    lRemaining := a.lTimeMicroseconds }] },
        [f]) := by
  have hs : g.slot 0 = a := by simp [TimerGlobals.slot, h]
  simp only [ISR_TIMER1_COMPA, MAX_INSTANCE, List.range_succ, List.range_zero, List.nil_append,
    List.foldl_cons, List.foldl_nil, isrSlot, hs, hf]
  have hr1 : (a.lRemaining + 4294967295) % 4294967296 = 0 := by omega
  have hOS : ONCE ≠ STOP := by decide
  by_cases hO : a.iMode = ONCE
  · simp [hOS, TimerGlobals.setSlot, TimerGlobals.slot, h, hr1, henv, hO]
  · simp [hm, TimerGlobals.setSlot, TimerGlobals.slot, h, hr1, henv, hO]

theorem ticks_add (env : CallbackEnv) (m n : Nat) : ∀ g : TimerGlobals,
    ticks env (m + n) g =
      ((ticks env n (ticks env m g).1).1, (ticks env m g).2 ++ (ticks env n (ticks env m g).1).2) := by
  induction m with
  | zero =>
    intro g
    simp [ticks]
  | succ m ih =>
    intro g
    rw [show m + 1 + n = (m + n) + 1 by omega]
    simp only [ticks, ih, List.append_assoc]

theorem ticks_idle (env : CallbackEnv) (n : Nat) (g : TimerGlobals) (a : Attach)
    (h : g.tAttaches = [a]) (hidle : a.fCallBack = none ∨ a.iMode = STOP) :
    ticks env n g = (g, []) := by
  induction n with
  | zero => rfl
  | succ n ih => simp only [ticks, ISR_idle env g a h hidle, ih, List.append_nil]

theorem ticks_countdown (env : CallbackEnv) (f : Nat) (k : Nat) :
    ∀ (g : TimerGlobals) (a : Attach), g.tAttaches = [a] → a.fCallBack = some f →
      a.iMode ≠ STOP → k < a.lRemaining → a.lRemaining ≤ 2 ^ 32 →
      ticks env k g = ({ g with tAttaches := [{ a with lRemaining := a.lRemaining - k }] }, []) := by
  induction k with
  | zero =>
    intro g a h _ _ _ _
    simp only [ticks, Nat.sub_zero]
    rw [← h]
  | succ k ih =>
    intro g a h hf hm hk hle
    have hstep := ISR_count env g a f h hf hm (by omega)
    have hrem : (a.lRemaining + 2 ^ 32 - 1) % 2 ^ 32 = a.lRemaining - 1 := by omega
    rw [hrem] at hstep
    simp only [ticks, hstep, List.nil_append]
    rw [ih _ { a with lRemaining := a.lRemaining - 1 } rfl hf hm (by simp only; omega)
      (by simp only; omega)]
    simp only [Nat.sub_sub, Nat.add_comm 1 k]

theorem ticks_to_fire (env : CallbackEnv) (f : Nat) (g : TimerGlobals) (a : Attach)
    (h : g.tAttaches = [a]) (hf : a.fCallBack = some f) (hm : a.iMode ≠ STOP)
    (hpos : 1 ≤ a.lRemaining) (hle : a.lRemaining ≤ 2 ^ 32) (henv : ∀ x, env f x = x) :
    ticks env a.lRemaining g =
      ({ g with tAttaches :=
          [{ a with iMode := if a.iMode = ONCE then STOP else a.iMode,
                    lRemaining := a.lTimeMicroseconds }] },
        [f]) := by
  obtain ⟨r, hr⟩ : ∃ r, a.lRemaining = r + 1 := ⟨a.lRemaining - 1, by omega⟩
  rw [hr, ticks_add env r 1 g, ticks_countdown env f r g a h hf hm (by omega) hle]
  simp only [ticks, List.nil_append, List.append_nil]
  rw [ISR_fire env _ { a with lRemaining := a.lRemaining - r } f rfl hf hm
    (by simp only; omega) henv]

theorem once_us_table (g : TimerGlobals) (t : Timer) (v : Nat) (cb : Option Nat)
    (hg : g.WellFormed) (ht : t.OwnsSlot) :
    Timer.once_us g t v cb = { g with tAttaches := [⟨cb, v / 100, v / 100, ONCE⟩] } := by
  obtain ⟨a, ha⟩ := wellFormed_table g hg
  simp [Timer.once_us, ownsSlot_index t ht, TimerGlobals.setSlot, TimerGlobals.slot, ha]

theorem once_ms_table (g : TimerGlobals) (t : Timer) (v : Nat) (cb : Option Nat)
    (hg : g.WellFormed) (ht : t.OwnsSlot) :
    Timer.once_ms g t v cb =
      { g with tAttaches :=
          [⟨cb, v * 1000 % 2 ^ 32 / 100, v * 1000 % 2 ^ 32 / 100, ONCE⟩] } := by
  obtain ⟨a, ha⟩ := wellFormed_table g hg
  simp [Timer.once_ms, ownsSlot_index t ht, TimerGlobals.setSlot, TimerGlobals.slot, ha]

theorem attach_us_table (g : TimerGlobals) (t : Timer) (v : Nat) (cb : Option Nat)
    (hg : g.WellFormed) (ht : t.OwnsSlot) :
    Timer.attach_us g t v cb = { g with tAttaches := [⟨cb, v / 100, v / 100, START⟩] } := by
  obtain ⟨a, ha⟩ := wellFormed_table g hg
  simp [Timer.attach_us, ownsSlot_index t ht, TimerGlobals.setSlot, TimerGlobals.slot, ha]

theorem attach_ms_table (g : TimerGlobals) (t : Timer) (v : Nat) (cb : Option Nat)
    (hg : g.WellFormed) (ht : t.OwnsSlot) :
    Timer.attach_ms g t v cb =
      { g with tAttaches :=
          [⟨cb, v * 1000 % 2 ^ 32 / 100, v * 1000 % 2 ^ 32 / 100, START⟩] } := by
  obtain ⟨a, ha⟩ := wellFormed_table g hg
  simp [Timer.attach_ms, ownsSlot_index t ht, TimerGlobals.setSlot, TimerGlobals.slot, ha]

theorem detach_table (g : TimerGlobals) (t : Timer) (a : Attach)
    (hg : g.tAttaches = [a]) (ht : t.OwnsSlot) :
    Timer.detach g t = { g with tAttaches := [{ a with iMode := STOP, fCallBack := none }] } := by
  simp [Timer.detach, ownsSlot_index t ht, TimerGlobals.setSlot, TimerGlobals.slot, hg]

theorem ISR_idle_slot (env : CallbackEnv) (g : TimerGlobals)
    (hidle : (g.slot 0).fCallBack = none ∨ (g.slot 0).iMode = STOP) :
    ISR_TIMER1_COMPA env g = (g, []) := by
  simp only [ISR_TIMER1_COMPA, MAX_INSTANCE, List.range_succ, List.range_zero, List.nil_append,
    List.foldl_cons, List.foldl_nil, isrSlot]
  rcases hidle with h1 | h1
  · simp [h1]
  · cases hf : (g.slot 0).fCallBack <;> simp [h1]

theorem ticks_idle_slot (env : CallbackEnv) (n : Nat) (g : TimerGlobals)
    (hidle : (g.slot 0).fCallBack = none ∨ (g.slot 0).iMode = STOP) :
    ticks env n g = (g, []) := by
  induction n with
  | zero => rfl
  | succ n ih => simp only [ticks, ISR_idle_slot env g hidle, ih, List.append_nil]

theorem once_run (env : CallbackEnv) (inst runs cb P : Nat) (hpos : 1 ≤ P) (hle : P ≤ 2 ^ 32)
    (henv : ∀ x, env cb x = x) :
    (∀ k, k < P → (ticks env k ⟨inst, [⟨some cb, P, P, ONCE⟩], runs⟩).2 = []) ∧
    ticks env P ⟨inst, [⟨some cb, P, P, ONCE⟩], runs⟩ =
      (⟨inst, [⟨some cb, P, P, STOP⟩], runs⟩, [cb]) ∧
    ∀ n, (ticks env (P + n) ⟨inst, [⟨some cb, P, P, ONCE⟩], runs⟩).2 = [cb] := by
  have hOS : ONCE ≠ STOP := by decide
  have hfire := ticks_to_fire env cb ⟨inst, [⟨some cb, P, P, ONCE⟩], runs⟩
    ⟨some cb, P, P, ONCE⟩ rfl rfl hOS hpos hle henv
  simp only [if_true] at hfire
  refine ⟨fun k hk => ?_, hfire, fun n => ?_⟩
  · rw [ticks_countdown env cb k ⟨inst, [⟨some cb, P, P, ONCE⟩], runs⟩
      ⟨some cb, P, P, ONCE⟩ rfl rfl hOS hk hle]
  · rw [ticks_add, hfire]
    simp only
    rw [ticks_idle env n _ ⟨some cb, P, P, STOP⟩ rfl (Or.inr rfl)]
    rfl

/-! ## Theorems: the timer multiplexer -/

/-- C6 (amended): for a one-shot attach (`once_us` or `once_ms`) on a handle that owns
a slot, with a callback that leaves the timer variables alone, and a stored period
`P` of at least one tick: no callback is called during the first `P - 1` tick passes,
after `P` passes the callback has been called exactly once and the mode is `STOP`,
and after any number of further passes it has still been called exactly once. -/
theorem once_fires_exactly_once (env : CallbackEnv) (g : TimerGlobals) (t : Timer)
    (v cb : Nat) (g1 : TimerGlobals) (P : Nat)
    (hg : g.WellFormed) (ht : t.OwnsSlot) (hv : v < 2 ^ 32) (henv : ∀ x, env cb x = x)
    (hg1 : g1 = Timer.once_us g t v (some cb) ∨ g1 = Timer.once_ms g t v (some cb))
    (hP : (g1.slot 0).lTimeMicroseconds = P) (hpos : 1 ≤ P) :
    (∀ k, k < P → (ticks env k g1).2 = []) ∧
    (ticks env P g1).2 = [cb] ∧
    ((ticks env P g1).1.slot 0).iMode = STOP ∧
    ∀ n, (ticks env (P + n) g1).2 = [cb] := by
  have key : ∃ inst runs, g1 = ⟨inst, [⟨some cb, P, P, ONCE⟩], runs⟩ ∧ P ≤ 2 ^ 32 := by
    rcases hg1 with h | h
    · rw [once_us_table g t v (some cb) hg ht] at h
      subst h
      simp only [TimerGlobals.slot, List.getD_cons_zero] at hP
      subst hP
      exact ⟨g.iInstance, g.setupRuns, rfl, by omega⟩
    · rw [once_ms_table g t v (some cb) hg ht] at h
      subst h
      simp only [TimerGlobals.slot, List.getD_cons_zero] at hP
      subst hP
      exact ⟨g.iInstance, g.setupRuns, rfl, by omega⟩
  obtain ⟨inst, runs, hgeq, hle⟩ := key
  subst hgeq
  obtain ⟨h1, h2, h3⟩ := once_run env inst runs cb P hpos hle henv
  refine ⟨h1, ?_, ?_, h3⟩
  · rw [h2]
  · rw [h2]
    rfl

theorem once_fires_exactly_once_witness :
    (∀ k, k < 3 → (ticks quietEnv k
      (Timer.once_us (Timer.new TimerGlobals.init).1 (Timer.new TimerGlobals.init).2 350
        (some 7))).2 = []) ∧
    (ticks quietEnv 3
      (Timer.once_us (Timer.new TimerGlobals.init).1 (Timer.new TimerGlobals.init).2 350
        (some 7))).2 = [7] ∧
    ((ticks quietEnv 3
      (Timer.once_us (Timer.new TimerGlobals.init).1 (Timer.new TimerGlobals.init).2 350
        (some 7))).1.slot 0).iMode = STOP ∧
    ∀ n, (ticks quietEnv (3 + n)
      (Timer.once_us (Timer.new TimerGlobals.init).1 (Timer.new TimerGlobals.init).2 350
        (some 7))).2 = [7] :=
  once_fires_exactly_once quietEnv (Timer.new TimerGlobals.init).1
    (Timer.new TimerGlobals.init).2 350 7 _ 3 (by decide) (by decide) (by decide)
    (fun _ => rfl) (Or.inl rfl) (by decide) (by decide)

/-- C6 (as stated, at a period of zero ticks): a one-shot attach of 50 microseconds on
the first handle stores a period of 0 ticks; the callback has not been called after 0
passes nor after 1 pass, the mode after either is still `ONCE`, and the first pass
leaves a remaining count of 2^32 - 1. -/
theorem once_zero_period_not_fired :
    (Timer.new TimerGlobals.init).2.OwnsSlot ∧
    (shortOnce.slot 0).lTimeMicroseconds = 0 ∧
    ¬ ((∀ k, k < 0 → (ticks quietEnv k shortOnce).2 = []) ∧
        (ticks quietEnv 0 shortOnce).2 = [7] ∧
        ((ticks quietEnv 0 shortOnce).1.slot 0).iMode = STOP ∧
        ∀ n, (ticks quietEnv (0 + n) shortOnce).2 = [7]) ∧
    (ticks quietEnv 1 shortOnce).2 = [] ∧
    ((ticks quietEnv 1 shortOnce).1.slot 0).iMode = ONCE ∧
    ((ticks quietEnv 1 shortOnce).1.slot 0).lRemaining = 2 ^ 32 - 1 := by
  refine ⟨by decide, by decide, ?_, by decide, by decide, by decide⟩
  intro h
  exact absurd h.2.1 (by decide)

theorem repeating_run (env : CallbackEnv) (inst runs cb P : Nat) (hpos : 1 ≤ P)
    (hle : P ≤ 2 ^ 32) (henv : ∀ x, env cb x = x) (q : Nat) : ∀ r, r < P →
    ticks env (q * P + r) ⟨inst, [⟨some cb, P, P, START⟩], runs⟩ =
      (⟨inst, [⟨some cb, P, P - r, START⟩], runs⟩, List.replicate q cb) := by
  have hSS : START ≠ STOP := by decide
  have hSO : START ≠ ONCE := by decide
  induction q with
  | zero =>
    intro r hr
    rw [Nat.zero_mul, Nat.zero_add,
      ticks_countdown env cb r ⟨inst, [⟨some cb, P, P, START⟩], runs⟩
        ⟨some cb, P, P, START⟩ rfl rfl hSS hr hle]
    rfl
  | succ q ih =>
    intro r hr
    have hfire := ticks_to_fire env cb ⟨inst, [⟨some cb, P, P, START⟩], runs⟩
      ⟨some cb, P, P, START⟩ rfl rfl hSS hpos hle henv
    simp only [if_neg hSO] at hfire
    rw [show (q + 1) * P + r = P + (q * P + r) by ring, ticks_add, hfire]
    simp only
    rw [ih r hr, List.replicate_succ]
    rfl

/-- C7: for a repeating attach (`attach_us` or `attach_ms`) on a handle that owns a
slot, with a callback that leaves the timer variables alone, and a stored period `P`
of at least one tick: after `n` tick passes with no detach the callback has been
called exactly `n / P` times and the mode is `START`; the `k`-th call happens on pass
`k * P` (there are `k - 1` calls after pass `k * P - 1` and `k` after pass `k * P`). -/
theorem repeating_fires_every_period (env : CallbackEnv) (g : TimerGlobals) (t : Timer)
    (v cb : Nat) (g1 : TimerGlobals) (P : Nat)
    (hg : g.WellFormed) (ht : t.OwnsSlot) (hv : v < 2 ^ 32) (henv : ∀ x, env cb x = x)
    (hg1 : g1 = Timer.attach_us g t v (some cb) ∨ g1 = Timer.attach_ms g t v (some cb))
    (hP : (g1.slot 0).lTimeMicroseconds = P) (hpos : 1 ≤ P) :
    (∀ n, (ticks env n g1).2 = List.replicate (n / P) cb ∧
      ((ticks env n g1).1.slot 0).iMode = START) ∧
    (∀ k, 1 ≤ k → (ticks env (k * P - 1) g1).2 = List.replicate (k - 1) cb ∧
      (ticks env (k * P) g1).2 = List.replicate k cb) := by
  have key : ∃ inst runs, g1 = ⟨inst, [⟨some cb, P, P, START⟩], runs⟩ ∧ P ≤ 2 ^ 32 := by
    rcases hg1 with h | h
    · rw [attach_us_table g t v (some cb) hg ht] at h
      subst h
      simp only [TimerGlobals.slot, List.getD_cons_zero] at hP
      subst hP
      exact ⟨g.iInstance, g.setupRuns, rfl, by omega⟩
    · rw [attach_ms_table g t v (some cb) hg ht] at h
      subst h
      simp only [TimerGlobals.slot, List.getD_cons_zero] at hP
      subst hP
      exact ⟨g.iInstance, g.setupRuns, rfl, by omega⟩
  obtain ⟨inst, runs, hgeq, hle⟩ := key
  subst hgeq
  have hrun : ∀ n, ticks env n ⟨inst, [⟨some cb, P, P, START⟩], runs⟩ =
      (⟨inst, [⟨some cb, P, P - n % P, START⟩], runs⟩, List.replicate (n / P) cb) := by
    intro n
    have h := repeating_run env inst runs cb P hpos hle henv (n / P) (n % P)
      (Nat.mod_lt n (by omega))
    rwa [Nat.div_add_mod' n P] at h
  refine ⟨fun n => ?_, fun k hk => ?_⟩
  · rw [hrun n]
    exact ⟨rfl, rfl⟩
  · rw [hrun, hrun]
    have h1 : (k * P - 1) / P = k - 1 := by
      apply Nat.div_eq_of_lt_le
      · have : (k - 1) * P + P = k * P := by
          rw [← Nat.succ_mul]
          congr 1
          omega
        omega
      · rw [show k - 1 + 1 = k by omega]
        have : 0 < k * P := Nat.mul_pos (by omega) (by omega)
        omega
    have h2 : k * P / P = k := Nat.mul_div_cancel k (by omega)
    rw [h1, h2]
    exact ⟨rfl, rfl⟩

theorem repeating_fires_every_period_witness :
    (∀ n, (ticks quietEnv n
        (Timer.attach_us (Timer.new TimerGlobals.init).1 (Timer.new TimerGlobals.init).2 350
          (some 7))).2 = List.replicate (n / 3) 7 ∧
      ((ticks quietEnv n
        (Timer.attach_us (Timer.new TimerGlobals.init).1 (Timer.new TimerGlobals.init).2 350
          (some 7))).1.slot 0).iMode = START) ∧
    (∀ k, 1 ≤ k →
      (ticks quietEnv (k * 3 - 1)
        (Timer.attach_us (Timer.new TimerGlobals.init).1 (Timer.new TimerGlobals.init).2 350
          (some 7))).2 = List.replicate (k - 1) 7 ∧
      (ticks quietEnv (k * 3)
        (Timer.attach_us (Timer.new TimerGlobals.init).1 (Timer.new TimerGlobals.init).2 350
          (some 7))).2 = List.replicate k 7) :=
  repeating_fires_every_period quietEnv (Timer.new TimerGlobals.init).1
    (Timer.new TimerGlobals.init).2 350 7 _ 3 (by decide) (by decide) (by decide)
    (fun _ => rfl) (Or.inl rfl) (by decide) (by decide)

theorem detach_slot (g : TimerGlobals) (t : Timer) (ht : t.OwnsSlot) :
    ((Timer.detach g t).slot 0).iMode = STOP ∧ ((Timer.detach g t).slot 0).fCallBack = none := by
  have h0 := ownsSlot_index t ht
  cases hl : g.tAttaches with
  | nil => simp [Timer.detach, h0, TimerGlobals.setSlot, TimerGlobals.slot, hl, default]
  | cons a rest => simp [Timer.detach, h0, TimerGlobals.setSlot, TimerGlobals.slot, hl]

/-- C8: after any of the four attach methods on a handle that owns a slot, `k` tick
passes during which no callback was called, and then `detach()`: the slot has mode
`STOP` and a null callback, every later run of tick passes calls nothing and leaves
the variables (the slot included) unchanged, so that no callback is called at all. -/
theorem detach_before_fire_never_fires (env : CallbackEnv) (g : TimerGlobals) (t : Timer)
    (v : Nat) (cb : Option Nat) (k : Nat) (g1 : TimerGlobals)
    (hg : g.WellFormed) (ht : t.OwnsSlot)
    (hg1 : g1 = Timer.attach_us g t v cb ∨ g1 = Timer.attach_ms g t v cb ∨
      g1 = Timer.once_us g t v cb ∨ g1 = Timer.once_ms g t v cb)
    (hquiet : (ticks env k g1).2 = []) :
    g1.WellFormed ∧
    ((Timer.detach (ticks env k g1).1 t).slot 0).iMode = STOP ∧
    ((Timer.detach (ticks env k g1).1 t).slot 0).fCallBack = none ∧
    ∀ n, ticks env n (Timer.detach (ticks env k g1).1 t) =
        (Timer.detach (ticks env k g1).1 t, []) ∧
      (ticks env k g1).2 ++ (ticks env n (Timer.detach (ticks env k g1).1 t)).2 = [] := by
  obtain ⟨hm, hf⟩ := detach_slot (ticks env k g1).1 t ht
  refine ⟨?_, hm, hf, fun n => ?_⟩
  · rcases hg1 with h | h | h | h
    · rw [h, attach_us_table g t v cb hg ht]; rfl
    · rw [h, attach_ms_table g t v cb hg ht]; rfl
    · rw [h, once_us_table g t v cb hg ht]; rfl
    · rw [h, once_ms_table g t v cb hg ht]; rfl
  · have hidle := ticks_idle_slot env n _ (Or.inl hf)
    refine ⟨hidle, ?_⟩
    rw [hidle, hquiet]
    rfl

theorem detach_before_fire_never_fires_witness :
    (Timer.attach_us (Timer.new TimerGlobals.init).1 (Timer.new TimerGlobals.init).2 350
      (some 7)).WellFormed ∧
    ((Timer.detach (ticks quietEnv 2
      (Timer.attach_us (Timer.new TimerGlobals.init).1 (Timer.new TimerGlobals.init).2 350
        (some 7))).1 (Timer.new TimerGlobals.init).2).slot 0).iMode = STOP ∧
    ((Timer.detach (ticks quietEnv 2
      (Timer.attach_us (Timer.new TimerGlobals.init).1 (Timer.new TimerGlobals.init).2 350
        (some 7))).1 (Timer.new TimerGlobals.init).2).slot 0).fCallBack = none ∧
    ∀ n, ticks quietEnv n (Timer.detach (ticks quietEnv 2
        (Timer.attach_us (Timer.new TimerGlobals.init).1 (Timer.new TimerGlobals.init).2 350
          (some 7))).1 (Timer.new TimerGlobals.init).2) =
        (Timer.detach (ticks quietEnv 2
          (Timer.attach_us (Timer.new TimerGlobals.init).1 (Timer.new TimerGlobals.init).2 350
            (some 7))).1 (Timer.new TimerGlobals.init).2, []) ∧
      (ticks quietEnv 2
        (Timer.attach_us (Timer.new TimerGlobals.init).1 (Timer.new TimerGlobals.init).2 350
          (some 7))).2 ++
        (ticks quietEnv n (Timer.detach (ticks quietEnv 2
          (Timer.attach_us (Timer.new TimerGlobals.init).1 (Timer.new TimerGlobals.init).2 350
            (some 7))).1 (Timer.new TimerGlobals.init).2)).2 = [] :=
  detach_before_fire_never_fires quietEnv (Timer.new TimerGlobals.init).1
    (Timer.new TimerGlobals.init).2 350 (some 7) 2 _ (by decide) (by decide)
    (Or.inl rfl) (by decide)

theorem new_full (g : TimerGlobals) (h : MAX_INSTANCE ≤ g.iInstance) :
    Timer.new g = (g, ⟨-1⟩) := by
  simp only [MAX_INSTANCE] at h
  have h0 : g.iInstance ≠ 0 := by omega
  have h1 : ¬ MAX_INSTANCE > g.iInstance := by simp only [MAX_INSTANCE]; omega
  simp [Timer.new, SetupTimerOne, h0, h1]

theorem constructMany_full (n : Nat) (g : TimerGlobals) (h : MAX_INSTANCE ≤ g.iInstance) :
    constructMany n g = (g, List.replicate n ⟨-1⟩) := by
  induction n with
  | zero => rfl
  | succ n ih => simp only [constructMany, new_full g h, ih, List.replicate_succ]

theorem constructMany_init (n : Nat) :
    constructMany (n + 1) TimerGlobals.init =
      (⟨1, [⟨none, 0, 0, STOP⟩], 1⟩, ⟨0⟩ :: List.replicate n ⟨-1⟩) := by
  have h1 : Timer.new TimerGlobals.init = (⟨1, [⟨none, 0, 0, STOP⟩], 1⟩, ⟨0⟩) := by decide
  simp only [constructMany, h1]
  rw [constructMany_full n _ (by decide)]

theorem no_slot_noop (g : TimerGlobals) (v : Nat) (cb : Option Nat) :
    Timer.attach_ms g ⟨-1⟩ v cb = g ∧ Timer.attach_us g ⟨-1⟩ v cb = g ∧
    Timer.once_ms g ⟨-1⟩ v cb = g ∧ Timer.once_us g ⟨-1⟩ v cb = g ∧
    Timer.detach g ⟨-1⟩ = g := by
  simp [Timer.attach_ms, Timer.attach_us, Timer.once_ms, Timer.once_us, Timer.detach]

/-- C9: when `n` handles are constructed from program start, every handle after the
first `MAX_INSTANCE` has `m_AttachIndex = -1`; on such a handle `attach_ms`,
`attach_us`, `once_ms`, `once_us` and `detach` return the variables unchanged in
every state, and after an attach on it in the state the constructions leave, no run
of tick passes calls any callback. -/
theorem excess_handles_are_noops (n i : Nat) (hi : MAX_INSTANCE ≤ i) (hn : i < n) :
    ∃ t, (constructMany n TimerGlobals.init).2[i]? = some t ∧
      t.m_AttachIndex = -1 ∧ ¬ t.OwnsSlot ∧
      ∀ (g : TimerGlobals) (v : Nat) (cb : Option Nat),
        (Timer.attach_ms g t v cb = g ∧ Timer.attach_us g t v cb = g ∧
          Timer.once_ms g t v cb = g ∧ Timer.once_us g t v cb = g ∧ Timer.detach g t = g) ∧
        ∀ (env : CallbackEnv) (m : Nat),
          (ticks env m (Timer.attach_ms (constructMany n TimerGlobals.init).1 t v cb)).2 = [] ∧
          (ticks env m (Timer.attach_us (constructMany n TimerGlobals.init).1 t v cb)).2 = [] ∧
          (ticks env m (Timer.once_ms (constructMany n TimerGlobals.init).1 t v cb)).2 = [] ∧
          (ticks env m (Timer.once_us (constructMany n TimerGlobals.init).1 t v cb)).2 = [] := by
  simp only [MAX_INSTANCE] at hi
  obtain ⟨n, rfl⟩ : ∃ n1, n = n1 + 1 := ⟨n - 1, by omega⟩
  obtain ⟨i, rfl⟩ : ∃ i1, i = i1 + 1 := ⟨i - 1, by omega⟩
  refine ⟨⟨-1⟩, ?_, rfl, ?_, fun g v cb => ⟨no_slot_noop g v cb, fun env m => ?_⟩⟩
  · rw [constructMany_init]
    simp only [List.getElem?_cons_succ]
    rw [List.getElem?_replicate]
    simp
    omega
  · intro h
    have := h.1
    simp at this
  · obtain ⟨h1, h2, h3, h4, _⟩ := no_slot_noop (constructMany (n + 1) TimerGlobals.init).1 v cb
    rw [h1, h2, h3, h4, constructMany_init]
    simp only
    rw [ticks_idle env m _ ⟨none, 0, 0, STOP⟩ rfl (Or.inl rfl)]
    simp

theorem excess_handles_are_noops_witness :
    ∃ t, (constructMany 3 TimerGlobals.init).2[2]? = some t ∧
      t.m_AttachIndex = -1 ∧ ¬ t.OwnsSlot ∧
      ∀ (g : TimerGlobals) (v : Nat) (cb : Option Nat),
        (Timer.attach_ms g t v cb = g ∧ Timer.attach_us g t v cb = g ∧
          Timer.once_ms g t v cb = g ∧ Timer.once_us g t v cb = g ∧ Timer.detach g t = g) ∧
        ∀ (env : CallbackEnv) (m : Nat),
          (ticks env m (Timer.attach_ms (constructMany 3 TimerGlobals.init).1 t v cb)).2 = [] ∧
          (ticks env m (Timer.attach_us (constructMany 3 TimerGlobals.init).1 t v cb)).2 = [] ∧
          (ticks env m (Timer.once_ms (constructMany 3 TimerGlobals.init).1 t v cb)).2 = [] ∧
          (ticks env m (Timer.once_us (constructMany 3 TimerGlobals.init).1 t v cb)).2 = [] :=
  excess_handles_are_noops 3 2 (by decide) (by decide)

/-- C10: on a handle that owns a slot, `attach_us(us, cb)` leaves that slot with
callback `cb`, period and remaining count `us / 100` (rounded down) and mode `START`,
and `once_us(us, cb)` leaves the same with mode `ONCE`, whatever the slot held
before; `iInstance` is not changed. -/
theorem attach_us_once_us_store (g : TimerGlobals) (t : Timer) (us : Nat) (cb : Option Nat)
    (hg : g.WellFormed) (ht : t.OwnsSlot) :
    (Timer.attach_us g t us cb).slot t.m_AttachIndex.toNat =
      ⟨cb, us / 100, us / 100, START⟩ ∧
    (Timer.once_us g t us cb).slot t.m_AttachIndex.toNat =
      ⟨cb, us / 100, us / 100, ONCE⟩ ∧
    (Timer.attach_us g t us cb).WellFormed ∧ (Timer.once_us g t us cb).WellFormed ∧
    (Timer.attach_us g t us cb).iInstance = g.iInstance ∧
    (Timer.once_us g t us cb).iInstance = g.iInstance ∧
    ∀ g2 : TimerGlobals, g2.WellFormed →
      (Timer.attach_us g2 t us cb).tAttaches = (Timer.attach_us g t us cb).tAttaches ∧
      (Timer.once_us g2 t us cb).tAttaches = (Timer.once_us g t us cb).tAttaches := by
  rw [attach_us_table g t us cb hg ht, once_us_table g t us cb hg ht, ownsSlot_index t ht]
  refine ⟨rfl, rfl, rfl, rfl, rfl, rfl, fun g2 hg2 => ?_⟩
  rw [attach_us_table g2 t us cb hg2 ht, once_us_table g2 t us cb hg2 ht]
  exact ⟨rfl, rfl⟩

theorem attach_us_once_us_store_witness :
    (Timer.attach_us ⟨1, [⟨some 3, 9, 4, ONCE⟩], 1⟩ ⟨0⟩ 1234 (some 7)).slot
        (0 : Int).toNat = ⟨some 7, 1234 / 100, 1234 / 100, START⟩ ∧
    (Timer.once_us ⟨1, [⟨some 3, 9, 4, ONCE⟩], 1⟩ ⟨0⟩ 1234 (some 7)).slot
        (0 : Int).toNat = ⟨some 7, 1234 / 100, 1234 / 100, ONCE⟩ ∧
    (Timer.attach_us ⟨1, [⟨some 3, 9, 4, ONCE⟩], 1⟩ ⟨0⟩ 1234 (some 7)).WellFormed ∧
    (Timer.once_us ⟨1, [⟨some 3, 9, 4, ONCE⟩], 1⟩ ⟨0⟩ 1234 (some 7)).WellFormed ∧
    (Timer.attach_us ⟨1, [⟨some 3, 9, 4, ONCE⟩], 1⟩ ⟨0⟩ 1234 (some 7)).iInstance = 1 ∧
    (Timer.once_us ⟨1, [⟨some 3, 9, 4, ONCE⟩], 1⟩ ⟨0⟩ 1234 (some 7)).iInstance = 1 ∧
    ∀ g2 : TimerGlobals, g2.WellFormed →
      (Timer.attach_us g2 ⟨0⟩ 1234 (some 7)).tAttaches =
        (Timer.attach_us ⟨1, [⟨some 3, 9, 4, ONCE⟩], 1⟩ ⟨0⟩ 1234 (some 7)).tAttaches ∧
      (Timer.once_us g2 ⟨0⟩ 1234 (some 7)).tAttaches =
        (Timer.once_us ⟨1, [⟨some 3, 9, 4, ONCE⟩], 1⟩ ⟨0⟩ 1234 (some 7)).tAttaches :=
  attach_us_once_us_store ⟨1, [⟨some 3, 9, 4, ONCE⟩], 1⟩ ⟨0⟩ 1234 (some 7)
    (by decide) (by decide)

/-- Where the product does not wrap: on a handle that owns a slot, for a millisecond
value `m` with `m * 1000 < 2^32`, `attach_ms(m, cb)` and `once_ms(m, cb)` store `10 * m` as
period and as remaining count, the value `attach_us` / `once_us` store for `1000 * m`
microseconds. -/
theorem attach_ms_once_ms_store (g : TimerGlobals) (t : Timer) (m : Nat) (cb : Option Nat)
    (hg : g.WellFormed) (ht : t.OwnsSlot) (hm : m * 1000 < 2 ^ 32) :
    (Timer.attach_ms g t m cb).slot t.m_AttachIndex.toNat = ⟨cb, 10 * m, 10 * m, START⟩ ∧
    (Timer.once_ms g t m cb).slot t.m_AttachIndex.toNat = ⟨cb, 10 * m, 10 * m, ONCE⟩ ∧
    Timer.attach_ms g t m cb = Timer.attach_us g t (1000 * m) cb ∧
    Timer.once_ms g t m cb = Timer.once_us g t (1000 * m) cb := by
  have h1 : m * 1000 % 2 ^ 32 / 100 = 10 * m := by
    rw [Nat.mod_eq_of_lt hm]
    omega
  have h2 : 1000 * m / 100 = 10 * m := by omega
  rw [attach_ms_table g t m cb hg ht, once_ms_table g t m cb hg ht,
    attach_us_table g t (1000 * m) cb hg ht, once_us_table g t (1000 * m) cb hg ht,
    ownsSlot_index t ht, h1, h2]
  exact ⟨rfl, rfl, rfl, rfl⟩

/-- C11: at m = 4294968, a 32-bit unsigned value whose tick count `10 * m` fits 32 bits,
on the first handle constructed at program start (which owns a slot), `attach_ms` and
`once_ms` store a period and a remaining count of 7 ticks, not `10 * 4294968`, because
`millisecond * 1000` wraps modulo 2^32 before the division by 100; `attach_us` stores
the value the claim names as soon as its argument is in range. -/
theorem attach_ms_overflow :
    4294968 < 2 ^ 32 ∧ 10 * 4294968 < 2 ^ 32 ∧ (Timer.new TimerGlobals.init).2.OwnsSlot ∧
    ((Timer.attach_ms (Timer.new TimerGlobals.init).1 (Timer.new TimerGlobals.init).2
      4294968 (some 7)).slot 0).lTimeMicroseconds = 7 ∧
    ((Timer.attach_ms (Timer.new TimerGlobals.init).1 (Timer.new TimerGlobals.init).2
      4294968 (some 7)).slot 0).lRemaining = 7 ∧
    ((Timer.once_ms (Timer.new TimerGlobals.init).1 (Timer.new TimerGlobals.init).2
      4294968 (some 7)).slot 0).lTimeMicroseconds = 7 ∧
    ((Timer.once_ms (Timer.new TimerGlobals.init).1 (Timer.new TimerGlobals.init).2
      4294968 (some 7)).slot 0).lRemaining = 7 ∧
    ((Timer.attach_ms (Timer.new TimerGlobals.init).1 (Timer.new TimerGlobals.init).2
      4294968 (some 7)).slot 0).lTimeMicroseconds ≠ 10 * 4294968 ∧
    ((Timer.once_ms (Timer.new TimerGlobals.init).1 (Timer.new TimerGlobals.init).2
      4294968 (some 7)).slot 0).lTimeMicroseconds ≠ 10 * 4294968 ∧
    ((Timer.attach_ms (Timer.new TimerGlobals.init).1 (Timer.new TimerGlobals.init).2
      4294967 (some 7)).slot 0).lTimeMicroseconds = 10 * 4294967 := by
  decide

/-! ## Theorems: construction and destruction of handles -/

theorem destroy_fields (g : TimerGlobals) (t : Timer) :
    (Timer.destroy g t).iInstance = g.iInstance ∧
    (Timer.destroy g t).setupRuns = g.setupRuns := by
  unfold Timer.destroy
  split <;> exact ⟨rfl, rfl⟩

theorem destroy_slot (g : TimerGlobals) (t : Timer) (hg : g.WellFormed) (ht : t.OwnsSlot) :
    (Timer.destroy g t).slot t.m_AttachIndex.toNat =
      { g.slot t.m_AttachIndex.toNat with iMode := STOP, fCallBack := none } := by
  obtain ⟨a, ha⟩ := wellFormed_table g hg
  simp [Timer.destroy, ownsSlot_index t ht, TimerGlobals.setSlot, TimerGlobals.slot, ha]

theorem new_empty (g : TimerGlobals) (h : g.iInstance = 0) :
    (Timer.new g).1.iInstance = 1 ∧ (Timer.new g).1.setupRuns = g.setupRuns + 1 ∧
    (Timer.new g).2 = ⟨0⟩ := by
  simp [Timer.new, SetupTimerOne, h, MAX_INSTANCE, TimerGlobals.setSlot, toInt16]

theorem new_iInstance_le (g : TimerGlobals) : g.iInstance ≤ (Timer.new g).1.iInstance := by
  by_cases h : g.iInstance = 0
  · rw [(new_empty g h).1, h]
    exact Nat.zero_le _
  · rw [new_full g (by simp only [MAX_INSTANCE]; omega)]

theorem stepOp_lifecycle_iInstance (env : CallbackEnv) (w : TimerGlobals × List Timer)
    (op : TimerOp) (hop : op.isLifecycle = true) :
    w.1.iInstance ≤ (stepOp env w op).1.iInstance := by
  cases op <;> simp [TimerOp.isLifecycle] at hop
  · exact new_iInstance_le w.1
  · simp only [stepOp, onHandle]
    split
    · exact Nat.le_of_eq (destroy_fields _ _).1.symm
    · exact Nat.le_refl _

theorem runOps_lifecycle_iInstance (env : CallbackEnv) (ops : List TimerOp) :
    ∀ w : TimerGlobals × List Timer, (∀ op ∈ ops, op.isLifecycle = true) →
      w.1.iInstance ≤ (runOps env w ops).1.iInstance := by
  induction ops with
  | nil => intro w _; exact Nat.le_refl _
  | cons op rest ih =>
    intro w h
    have h1 := stepOp_lifecycle_iInstance env w op (h op (List.mem_cons_self _ _))
    have h2 := ih (stepOp env w op) (fun o ho => h o (List.mem_cons_of_mem _ ho))
    exact Nat.le_trans h1 h2

theorem stepOp_lifecycle_inv (env : CallbackEnv) (w : TimerGlobals × List Timer)
    (op : TimerOp) (hop : op.isLifecycle = true)
    (hw : (w.1.iInstance = 0 ∧ w.2 = []) ∨
      (w.1.iInstance = 1 ∧ ∃ k, w.2 = ⟨0⟩ :: List.replicate k ⟨-1⟩)) :
    ((stepOp env w op).1.iInstance = 0 ∧ (stepOp env w op).2 = []) ∨
      ((stepOp env w op).1.iInstance = 1 ∧
        ∃ k, (stepOp env w op).2 = ⟨0⟩ :: List.replicate k ⟨-1⟩) := by
  cases op <;> simp [TimerOp.isLifecycle] at hop
  · right
    rcases hw with ⟨h0, hnil⟩ | ⟨h1, k, hk⟩
    · obtain ⟨e1, _, e3⟩ := new_empty w.1 h0
      refine ⟨e1, 0, ?_⟩
      simp only [stepOp, hnil, e3]
      rfl
    · have hfull := new_full w.1 (by simp only [MAX_INSTANCE]; omega)
      refine ⟨by simp only [stepOp, hfull]; exact h1, k + 1, ?_⟩
      simp only [stepOp, hfull, hk, List.cons_append, List.replicate_succ']
  · rename_i h
    have hi : (stepOp env w (TimerOp.destroy h)).1.iInstance = w.1.iInstance := by
      simp only [stepOp, onHandle]
      split
      · exact (destroy_fields _ _).1
      · rfl
    have hh : (stepOp env w (TimerOp.destroy h)).2 = w.2 := by
      simp only [stepOp, onHandle]
      split <;> rfl
    rw [hi, hh]
    exact hw

theorem runOps_lifecycle_inv (env : CallbackEnv) (ops : List TimerOp) :
    ∀ w : TimerGlobals × List Timer, (∀ op ∈ ops, op.isLifecycle = true) →
      ((w.1.iInstance = 0 ∧ w.2 = []) ∨
        (w.1.iInstance = 1 ∧ ∃ k, w.2 = ⟨0⟩ :: List.replicate k ⟨-1⟩)) →
      (((runOps env w ops).1.iInstance = 0 ∧ (runOps env w ops).2 = []) ∨
        ((runOps env w ops).1.iInstance = 1 ∧
          ∃ k, (runOps env w ops).2 = ⟨0⟩ :: List.replicate k ⟨-1⟩)) := by
  induction ops with
  | nil => intro w _ hw; exact hw
  | cons op rest ih =>
    intro w h hw
    exact ih (stepOp env w op) (fun o ho => h o (List.mem_cons_of_mem _ ho))
      (stepOp_lifecycle_inv env w op (h op (List.mem_cons_self _ _)) hw)

/-- C12: destroying a handle that owns a slot sets that slot's mode to `STOP` and its
callback to null and leaves `iInstance` as it is; over any sequence of constructions
and destructions `iInstance` never decreases; from program start it never exceeds
`MAX_INSTANCE`, at most `MAX_INSTANCE` handles own a slot, and every handle constructed
after the first `MAX_INSTANCE` has `m_AttachIndex = -1`; in particular the handle
constructed after the first one was destroyed owns no slot. -/
theorem destroyed_slot_not_reused (env : CallbackEnv) (ops : List TimerOp)
    (hops : ∀ op ∈ ops, op.isLifecycle = true) :
    (∀ (g : TimerGlobals) (t : Timer), g.WellFormed → t.OwnsSlot →
      ((Timer.destroy g t).slot t.m_AttachIndex.toNat).iMode = STOP ∧
      ((Timer.destroy g t).slot t.m_AttachIndex.toNat).fCallBack = none ∧
      (Timer.destroy g t).iInstance = g.iInstance) ∧
    (∀ w : TimerGlobals × List Timer, w.1.iInstance ≤ (runOps env w ops).1.iInstance) ∧
    (runOps env startWorld ops).1.iInstance ≤ MAX_INSTANCE ∧
    ((runOps env startWorld ops).2.filter (fun t => decide t.OwnsSlot)).length ≤ MAX_INSTANCE ∧
    (∀ (i : Nat) (t : Timer), MAX_INSTANCE ≤ i →
      (runOps env startWorld ops).2[i]? = some t → t.m_AttachIndex = -1 ∧ ¬ t.OwnsSlot) ∧
    (runOps env startWorld [.construct, .destroy 0, .construct]).2 = [⟨0⟩, ⟨-1⟩] := by
  have hno : ¬ (⟨-1⟩ : Timer).OwnsSlot := by decide
  refine ⟨fun g t hg ht => ?_, fun w => runOps_lifecycle_iInstance env ops w hops, ?_, ?_, ?_, ?_⟩
  · rw [destroy_slot g t hg ht]
    exact ⟨rfl, rfl, (destroy_fields g t).1⟩
  · rcases runOps_lifecycle_inv env ops startWorld hops (Or.inl ⟨rfl, rfl⟩) with
      ⟨h0, _⟩ | ⟨h1, _⟩
    · rw [h0]; decide
    · rw [h1]; decide
  · rcases runOps_lifecycle_inv env ops startWorld hops (Or.inl ⟨rfl, rfl⟩) with
      ⟨_, hnil⟩ | ⟨_, k, hk⟩
    · rw [hnil]; decide
    · rw [hk]
      have hf : (List.replicate k (⟨-1⟩ : Timer)).filter (fun t => decide t.OwnsSlot) = [] := by
        rw [List.filter_eq_nil_iff]
        intro a ha
        rw [List.eq_of_mem_replicate ha]
        simpa using hno
      rw [List.filter_cons, hf]
      split <;> simp [MAX_INSTANCE]
  · intro i t hi hget
    simp only [MAX_INSTANCE] at hi
    rcases runOps_lifecycle_inv env ops startWorld hops (Or.inl ⟨rfl, rfl⟩) with
      ⟨_, hnil⟩ | ⟨_, k, hk⟩
    · rw [hnil] at hget
      simp at hget
    · rw [hk] at hget
      obtain ⟨j, rfl⟩ : ∃ j, i = j + 1 := ⟨i - 1, by omega⟩
      rw [List.getElem?_cons_succ] at hget
      have hmem : t ∈ List.replicate k (⟨-1⟩ : Timer) := List.getElem?_mem hget
      rw [List.eq_of_mem_replicate hmem]
      exact ⟨rfl, hno⟩
  · rfl

theorem destroyed_slot_not_reused_witness :
    (∀ (g : TimerGlobals) (t : Timer), g.WellFormed → t.OwnsSlot →
      ((Timer.destroy g t).slot t.m_AttachIndex.toNat).iMode = STOP ∧
      ((Timer.destroy g t).slot t.m_AttachIndex.toNat).fCallBack = none ∧
      (Timer.destroy g t).iInstance = g.iInstance) ∧
    (∀ w : TimerGlobals × List Timer,
      w.1.iInstance ≤
        (runOps quietEnv w [.construct, .destroy 0, .construct, .construct]).1.iInstance) ∧
    (runOps quietEnv startWorld
      [.construct, .destroy 0, .construct, .construct]).1.iInstance ≤ MAX_INSTANCE ∧
    ((runOps quietEnv startWorld [.construct, .destroy 0, .construct, .construct]).2.filter
      (fun t => decide t.OwnsSlot)).length ≤ MAX_INSTANCE ∧
    (∀ (i : Nat) (t : Timer), MAX_INSTANCE ≤ i →
      (runOps quietEnv startWorld [.construct, .destroy 0, .construct, .construct]).2[i]? =
        some t → t.m_AttachIndex = -1 ∧ ¬ t.OwnsSlot) ∧
    (runOps quietEnv startWorld [.construct, .destroy 0, .construct]).2 = [⟨0⟩, ⟨-1⟩] :=
  destroyed_slot_not_reused quietEnv [.construct, .destroy 0, .construct, .construct]
    (by decide)

/-! ## Theorems: the hardware setup -/

theorem methods_fields (g : TimerGlobals) (t : Timer) (v : Nat) (cb : Option Nat) :
    ((Timer.attach_ms g t v cb).iInstance = g.iInstance ∧
      (Timer.attach_ms g t v cb).setupRuns = g.setupRuns) ∧
    ((Timer.attach_us g t v cb).iInstance = g.iInstance ∧
      (Timer.attach_us g t v cb).setupRuns = g.setupRuns) ∧
    ((Timer.once_ms g t v cb).iInstance = g.iInstance ∧
      (Timer.once_ms g t v cb).setupRuns = g.setupRuns) ∧
    ((Timer.once_us g t v cb).iInstance = g.iInstance ∧
      (Timer.once_us g t v cb).setupRuns = g.setupRuns) ∧
    ((Timer.detach g t).iInstance = g.iInstance ∧
      (Timer.detach g t).setupRuns = g.setupRuns) := by
  refine ⟨?_, ?_, ?_, ?_, ?_⟩
  · unfold Timer.attach_ms; split <;> exact ⟨rfl, rfl⟩
  · unfold Timer.attach_us; split <;> exact ⟨rfl, rfl⟩
  · unfold Timer.once_ms; split <;> exact ⟨rfl, rfl⟩
  · unfold Timer.once_us; split <;> exact ⟨rfl, rfl⟩
  · unfold Timer.detach; split <;> exact ⟨rfl, rfl⟩

theorem ISR_fields (env : CallbackEnv) (g : TimerGlobals)
    (henv : ∀ f x, (env f x).iInstance = x.iInstance ∧ (env f x).setupRuns = x.setupRuns) :
    (ISR_TIMER1_COMPA env g).1.iInstance = g.iInstance ∧
    (ISR_TIMER1_COMPA env g).1.setupRuns = g.setupRuns := by
  simp only [ISR_TIMER1_COMPA, MAX_INSTANCE, List.range_succ, List.range_zero, List.nil_append,
    List.foldl_cons, List.foldl_nil, isrSlot]
  split
  · exact ⟨rfl, rfl⟩
  · rename_i f _
    split
    · split
      · split
        · exact ⟨(henv f _).1, (henv f _).2⟩
        · exact ⟨(henv f _).1, (henv f _).2⟩
      · exact ⟨rfl, rfl⟩
    · exact ⟨rfl, rfl⟩

theorem stepOp_other_fields (env : CallbackEnv) (w : TimerGlobals × List Timer) (op : TimerOp)
    (henv : ∀ f x, (env f x).iInstance = x.iInstance ∧ (env f x).setupRuns = x.setupRuns)
    (hop : op.isConstruct = false) :
    (stepOp env w op).1.iInstance = w.1.iInstance ∧
    (stepOp env w op).1.setupRuns = w.1.setupRuns := by
  cases op with
  | construct => simp [TimerOp.isConstruct] at hop
  | attach_ms h v cb =>
    simp only [stepOp, onHandle]
    split
    · exact (methods_fields _ _ v cb).1
    · exact ⟨rfl, rfl⟩
  | attach_us h v cb =>
    simp only [stepOp, onHandle]
    split
    · exact (methods_fields _ _ v cb).2.1
    · exact ⟨rfl, rfl⟩
  | once_ms h v cb =>
    simp only [stepOp, onHandle]
    split
    · exact (methods_fields _ _ v cb).2.2.1
    · exact ⟨rfl, rfl⟩
  | once_us h v cb =>
    simp only [stepOp, onHandle]
    split
    · exact (methods_fields _ _ v cb).2.2.2.1
    · exact ⟨rfl, rfl⟩
  | detach h =>
    simp only [stepOp, onHandle]
    split
    · exact (methods_fields _ _ 0 none).2.2.2.2
    · exact ⟨rfl, rfl⟩
  | destroy h =>
    simp only [stepOp, onHandle]
    split
    · exact destroy_fields _ _
    · exact ⟨rfl, rfl⟩
  | tick => exact ISR_fields env w.1 henv

theorem runOps_after_setup (env : CallbackEnv)
    (henv : ∀ f x, (env f x).iInstance = x.iInstance ∧ (env f x).setupRuns = x.setupRuns)
    (ops : List TimerOp) : ∀ w : TimerGlobals × List Timer, w.1.iInstance ≠ 0 →
      (runOps env w ops).1.setupRuns = w.1.setupRuns := by
  induction ops with
  | nil => intro w _; rfl
  | cons op rest ih =>
    intro w hw
    show (runOps env (stepOp env w op) rest).1.setupRuns = _
    by_cases hc : op.isConstruct = true
    · cases op <;> simp [TimerOp.isConstruct] at hc
      have hfull := new_full w.1 (by simp only [MAX_INSTANCE]; omega)
      rw [ih _ (by simp only [stepOp, hfull]; exact hw)]
      simp only [stepOp, hfull]
    · obtain ⟨h1, h2⟩ := stepOp_other_fields env w op henv (by simpa using hc)
      rw [ih _ (by rw [h1]; exact hw), h2]

theorem runOps_setupRuns (env : CallbackEnv)
    (henv : ∀ f x, (env f x).iInstance = x.iInstance ∧ (env f x).setupRuns = x.setupRuns)
    (ops : List TimerOp) : ∀ w : TimerGlobals × List Timer, w.1.iInstance = 0 →
      (runOps env w ops).1.setupRuns =
        w.1.setupRuns + (if ops.any TimerOp.isConstruct then 1 else 0) := by
  induction ops with
  | nil => intro w _; rfl
  | cons op rest ih =>
    intro w hw
    show (runOps env (stepOp env w op) rest).1.setupRuns = _
    by_cases hc : op.isConstruct = true
    · cases op <;> simp [TimerOp.isConstruct] at hc
      obtain ⟨e1, e2, _⟩ := new_empty w.1 hw
      rw [runOps_after_setup env henv rest _ (by simp only [stepOp, e1]; decide)]
      simp only [stepOp, e2, List.any_cons, TimerOp.isConstruct, Bool.true_or, if_true]
    · have hc1 : op.isConstruct = false := by simpa using hc
      obtain ⟨h1, h2⟩ := stepOp_other_fields env w op henv hc1
      rw [ih _ (by rw [h1]; exact hw), h2]
      simp only [List.any_cons, hc1, Bool.false_or]

/-- C14: with callbacks that leave `iInstance` and the Timer1 registers alone, after any
sequence of constructions, attaches, detaches, destructions and tick passes from
program start the register writes of `SetupTimerOne` have been executed once if the
sequence contains a construction and not at all otherwise; so they happen during the
first construction, and no operation after it, a later construction included,
executes them again. -/
theorem setup_runs_once (env : CallbackEnv)
    (henv : ∀ f x, (env f x).iInstance = x.iInstance ∧ (env f x).setupRuns = x.setupRuns)
    (ops : List TimerOp) :
    (runOps env startWorld ops).1.setupRuns =
      (if ops.any TimerOp.isConstruct then 1 else 0) ∧
    (runOps env startWorld (ops ++ [.construct])).1.setupRuns = 1 ∧
    (ops.any TimerOp.isConstruct = true → ∀ more : List TimerOp,
      (runOps env startWorld (ops ++ more)).1.setupRuns =
        (runOps env startWorld ops).1.setupRuns) := by
  have key : ∀ l : List TimerOp, (runOps env startWorld l).1.setupRuns =
      (if l.any TimerOp.isConstruct then 1 else 0) := by
    intro l
    rw [runOps_setupRuns env henv l startWorld rfl]
    show 0 + _ = _
    rw [Nat.zero_add]
  refine ⟨key ops, ?_, fun hany more => ?_⟩
  · rw [key]
    simp [TimerOp.isConstruct]
  · rw [key, key, List.any_append, hany]
    rfl

theorem setup_runs_once_witness :
    (runOps quietEnv startWorld
      [.construct, .attach_us 0 350 (some 7), .tick, .tick, .tick, .destroy 0,
        .construct]).1.setupRuns =
      (if [TimerOp.construct, .attach_us 0 350 (some 7), .tick, .tick, .tick, .destroy 0,
        .construct].any TimerOp.isConstruct then 1 else 0) ∧
    (runOps quietEnv startWorld
      ([.construct, .attach_us 0 350 (some 7), .tick, .tick, .tick, .destroy 0,
        .construct] ++ [.construct])).1.setupRuns = 1 ∧
    ([TimerOp.construct, .attach_us 0 350 (some 7), .tick, .tick, .tick, .destroy 0,
        .construct].any TimerOp.isConstruct = true → ∀ more : List TimerOp,
      (runOps quietEnv startWorld
        ([.construct, .attach_us 0 350 (some 7), .tick, .tick, .tick, .destroy 0,
          .construct] ++ more)).1.setupRuns =
        (runOps quietEnv startWorld
          [.construct, .attach_us 0 350 (some 7), .tick, .tick, .tick, .destroy 0,
            .construct]).1.setupRuns) :=
  setup_runs_once quietEnv (fun _ _ => ⟨rfl, rfl⟩)
    [.construct, .attach_us 0 350 (some 7), .tick, .tick, .tick, .destroy 0, .construct]

/-! ## Theorems: one tick pass -/

/-- On a table with the one slot `a`, with a callback that leaves the timer variables
alone, one pass of the tick handler acts on the slot as `reloadingTickSlot` says. -/
theorem ISR_quiet_reloading (env : CallbackEnv) (g : TimerGlobals) (a : Attach)
    (h : g.tAttaches = [a]) (henv : ∀ f, a.fCallBack = some f → ∀ x, env f x = x) :
    ISR_TIMER1_COMPA env g =
      ({ g with tAttaches := [(reloadingTickSlot a).1] }, (reloadingTickSlot a).2) := by
  have hgg : { g with tAttaches := [a] } = g := by rw [← h]
  unfold reloadingTickSlot
  cases hf : a.fCallBack with
  | none =>
    simp only
    rw [ISR_idle env g a h (Or.inl hf), hgg]
  | some f =>
    simp only
    by_cases hm : a.iMode = STOP
    · rw [if_pos hm, ISR_idle env g a h (Or.inr hm), hgg]
    · rw [if_neg hm]
      by_cases hr : (a.lRemaining + 2 ^ 32 - 1) % 2 ^ 32 = 0
      · rw [if_pos hr, ISR_fire env g a f h hf hm hr (henv f hf)]
        by_cases hO : a.iMode = ONCE
        · simp only [if_pos hO, hf]
        · simp only [if_neg hO, hf]
      · rw [if_neg hr, ISR_count env g a f h hf hm hr]
        simp only [hf]

/-- C15 (amended): for every state of the timer variables and callbacks of any
behaviour, one pass of the tick handler leaves the slot unchanged and calls nothing
when the mode is `STOP` or the callback is null; otherwise it decrements the remaining
count modulo 2^32, and when the result is zero it calls the callback once and then, on
the slot as the callback left it, stops a one-shot slot, keeps any other mode, and in
both cases reloads the remaining count from the period; when the result is nonzero
nothing else changes. With a callback that leaves the timer variables alone this is
the effect `reloadingTickSlot` describes on the slot. -/
theorem ISR_refines_reloading (env : CallbackEnv) (g : TimerGlobals) :
    ISR_TIMER1_COMPA env g = reloadingTick env g ∧
    (∀ a : Attach, g.tAttaches = [a] → (∀ f, a.fCallBack = some f → ∀ x, env f x = x) →
      ISR_TIMER1_COMPA env g =
        ({ g with tAttaches := [(reloadingTickSlot a).1] }, (reloadingTickSlot a).2)) := by
  refine ⟨?_, fun a h henv => ISR_quiet_reloading env g a h henv⟩
  obtain ⟨inst, tab, runs⟩ := g
  simp only [ISR_TIMER1_COMPA, MAX_INSTANCE, List.range_succ, List.range_zero, List.nil_append,
    List.foldl_cons, List.foldl_nil, isrSlot, reloadingTick]
  cases tab with
  | nil => simp [TimerGlobals.slot, default]
  | cons a rest =>
    simp only [TimerGlobals.slot, TimerGlobals.setSlot, List.getD_cons_zero, List.set_cons_zero]
    cases hf : a.fCallBack with
    | none => rfl
    | some f =>
      simp only
      by_cases hm : a.iMode = STOP
      · simp [hm]
      · by_cases hr : (a.lRemaining + 2 ^ 32 - 1) % 2 ^ 32 = 0
        · simp only [ne_eq, hm, hr, not_false_eq_true, if_true, if_false]
          generalize env f _ = after
          obtain ⟨inst2, tab2, runs2⟩ := after
          cases tab2 with
          | nil => simp
          | cons b rest2 =>
            by_cases hO : b.iMode = ONCE
            · simp [hO]
            · simp [hO]
        · simp only [ne_eq, hm, hr, not_false_eq_true, if_true, if_false]

theorem ISR_refines_reloading_witness :
    ISR_TIMER1_COMPA detachingEnv ⟨1, [⟨some 7, 2, 1, START⟩], 1⟩ =
      reloadingTick detachingEnv ⟨1, [⟨some 7, 2, 1, START⟩], 1⟩ ∧
    (∀ a : Attach, (⟨1, [⟨some 7, 2, 1, START⟩], 1⟩ : TimerGlobals).tAttaches = [a] →
      (∀ f, a.fCallBack = some f → ∀ x, detachingEnv f x = x) →
      ISR_TIMER1_COMPA detachingEnv ⟨1, [⟨some 7, 2, 1, START⟩], 1⟩ =
        ({ (⟨1, [⟨some 7, 2, 1, START⟩], 1⟩ : TimerGlobals) with
            tAttaches := [(reloadingTickSlot a).1] }, (reloadingTickSlot a).2)) :=
  ISR_refines_reloading detachingEnv ⟨1, [⟨some 7, 2, 1, START⟩], 1⟩

/-- C15 (as stated, on a one-shot slot that fires): with period 3 and remaining count 1
the handler calls the callback, stops the slot and leaves a remaining count of 3, where
the pass as the specification words it leaves 0; the two results differ. -/
theorem ISR_reloads_oneshot :
    (ISR_TIMER1_COMPA quietEnv ⟨1, [⟨some 7, 3, 1, ONCE⟩], 1⟩).2 = [7] ∧
    (ISR_TIMER1_COMPA quietEnv ⟨1, [⟨some 7, 3, 1, ONCE⟩], 1⟩).1.tAttaches =
      [⟨some 7, 3, 3, STOP⟩] ∧
    specTickSlot ⟨some 7, 3, 1, ONCE⟩ = (⟨some 7, 3, 0, STOP⟩, [7]) ∧
    ISR_TIMER1_COMPA quietEnv ⟨1, [⟨some 7, 3, 1, ONCE⟩], 1⟩ ≠
      ({ (⟨1, [⟨some 7, 3, 1, ONCE⟩], 1⟩ : TimerGlobals) with
          tAttaches := [(specTickSlot ⟨some 7, 3, 1, ONCE⟩).1] },
        (specTickSlot ⟨some 7, 3, 1, ONCE⟩).2) := by
  decide

/-! ## Theorems: net count of a walk -/

theorem iMutations_step_pos (p c : Nat) (hp : p < 4) (hc : c < 4) (hflip : p ^^^ c ≠ 3) :
    ∃ d : Int, iMutations[RotaryEncoder.tableIndex p c]? = some d ∧
      d % 4 = (grayPos c - grayPos p) % 4 := by
  interval_cases p <;> interval_cases c <;> first | exact absurd rfl hflip | decide

theorem netCount_callsFor (f : Nat) (d : Int) (n : Nat) :
    netCount (callsFor (some f) d n) = d := by
  unfold callsFor netCount
  by_cases h : d = 0
  · simp [h]
  · simp [h]

theorem netCount_append (l1 l2 : List DirectionCall) :
    netCount (l1 ++ l2) = netCount l1 + netCount l2 := by
  simp [netCount]

theorem poll_cons (s : RotaryEncoder) (r : Int × Int) (rest : List (Int × Int))
    (s1 s2 : RotaryEncoder) (c1 c2 : List DirectionCall)
    (h1 : s.CheckValue r.1 r.2 = some (s1, c1)) (h2 : s1.poll rest = some (s2, c2)) :
    s.poll (r :: rest) = some (s2, c1 ++ c2) := by
  obtain ⟨a, b⟩ := r
  simp only [RotaryEncoder.poll, h1, h2]

theorem poll_walk (f : Nat) (reads : List (Int × Int)) : ∀ s : RotaryEncoder,
    s.WellFormed → s.fCallback = some f → noDoubleFlip s.iOld reads = true →
    ∃ s1 calls, s.poll reads = some (s1, calls) ∧
      s1.iOld = lastSample s.iOld reads ∧
      netCount calls % 4 = (grayPos s1.iOld - grayPos s.iOld) % 4 := by
  induction reads with
  | nil =>
    intro s _ _ _
    exact ⟨s, [], rfl, rfl, by simp [netCount]⟩
  | cons r rest ih =>
    intro s hs hcb hwalk
    simp only [noDoubleFlip, Bool.and_eq_true, bne_iff_ne, ne_eq] at hwalk
    obtain ⟨hflip, hrest⟩ := hwalk
    obtain ⟨s1, d, hd, _, hcv, hOld, hf, hwf, _⟩ := CheckValue_step s r.1 r.2 hs
    obtain ⟨d2, hd2, hpos⟩ := iMutations_step_pos s.iOld (packSample r.1 r.2) hs.1
      (packSample_lt r.1 r.2) hflip
    rw [hd] at hd2
    simp at hd2
    subst hd2
    rw [← hOld] at hrest hpos
    obtain ⟨s2, c2, hp2, hlast, hnet⟩ := ih s1 hwf (hf.trans hcb) hrest
    refine ⟨s2, _, poll_cons s r rest s1 s2 _ c2 hcv hp2, ?_, ?_⟩
    · rw [hlast, hOld]
      rfl
    · rw [netCount_append, hcb, netCount_callsFor]
      omega

/-- C16: from a well-formed state with a registered callback, over any sequence of
polls in which no step flips both bits, `poll` returns, `iOld` ends at the last sample,
and the sum of the arguments passed to the callback is congruent modulo 4 to the
position of the last sample minus the position of the initial `iOld` in the cycle
0, 1, 3, 2; when the walk ends where it started the sum is a multiple of 4. -/
theorem walk_net_count (s : RotaryEncoder) (f : Nat) (reads : List (Int × Int))
    (hs : s.WellFormed) (hcb : s.fCallback = some f)
    (hwalk : noDoubleFlip s.iOld reads = true) :
    ∃ s1 calls, s.poll reads = some (s1, calls) ∧
      s1.iOld = lastSample s.iOld reads ∧
      netCount calls % 4 = (grayPos (lastSample s.iOld reads) - grayPos s.iOld) % 4 ∧
      (lastSample s.iOld reads = s.iOld → netCount calls % 4 = 0) := by
  obtain ⟨s1, calls, hp, hlast, hnet⟩ := poll_walk f reads s hs hcb hwalk
  refine ⟨s1, calls, hp, hlast, ?_, ?_⟩
  · rw [← hlast]
    exact hnet
  · intro hclosed
    rw [hnet, hlast, hclosed]
    simp

theorem walk_net_count_witness :
    ∃ s1 calls,
      (RotaryEncoder.new 2 3 (some 7) 0 0).poll [(0, 1), (1, 1), (0, 1), (0, 0), (1, 0)] =
        some (s1, calls) ∧
      s1.iOld = lastSample (RotaryEncoder.new 2 3 (some 7) 0 0).iOld
        [(0, 1), (1, 1), (0, 1), (0, 0), (1, 0)] ∧
      netCount calls % 4 =
        (grayPos (lastSample (RotaryEncoder.new 2 3 (some 7) 0 0).iOld
          [(0, 1), (1, 1), (0, 1), (0, 0), (1, 0)]) -
          grayPos (RotaryEncoder.new 2 3 (some 7) 0 0).iOld) % 4 ∧
      (lastSample (RotaryEncoder.new 2 3 (some 7) 0 0).iOld
          [(0, 1), (1, 1), (0, 1), (0, 0), (1, 0)] =
        (RotaryEncoder.new 2 3 (some 7) 0 0).iOld → netCount calls % 4 = 0) :=
  walk_net_count (RotaryEncoder.new 2 3 (some 7) 0 0) 7
    [(0, 1), (1, 1), (0, 1), (0, 0), (1, 0)] (by decide) (by decide) (by decide)

/-! ## Theorems: array bounds in the decoder -/

/-- C17: in every state reachable from the constructor through `CheckValue`,
`BeginCheck` and `RefreshCheck`, for arbitrary integer pin reads, the table index
`(iOld << 2) | iNow` is below the 16 entries of `iMutations`, the counter index `iNow`
is below `CONNECTION_CHECK_BUF_LENGTH` and below the length of an installed buffer,
and `CheckValue` returns. -/
theorem indices_in_bounds (s : RotaryEncoder) (h : s.Reachable) (readA readB : Int) :
    RotaryEncoder.tableIndex s.iOld (packSample readA readB) < iMutations.length ∧
    iMutations.length = 16 ∧
    packSample readA readB < CONNECTION_CHECK_BUF_LENGTH ∧
    (∀ buf, s.tCheckBuf = some buf → packSample readA readB < buf.length) ∧
    (s.CheckValue readA readB).isSome = true := by
  have hs := Reachable_wellFormed s h
  have hn := packSample_lt readA readB
  refine ⟨?_, rfl, hn, fun buf hb => ?_, ?_⟩
  · rw [tableIndex_eq s.iOld _ hs.1 hn]
    have := hs.1
    show _ < 16
    omega
  · have h4 := hs.2
    rw [hb] at h4
    simp only [CONNECTION_CHECK_BUF_LENGTH] at h4
    omega
  · obtain ⟨s1, d, _, _, hcv, _⟩ := CheckValue_step s readA readB hs
    rw [hcv]
    rfl

theorem indices_in_bounds_witness :
    RotaryEncoder.tableIndex
      ({ RotaryEncoder.new 2 3 (some 7) 1 1 with tCheckBuf := some [0, 0, 0, 0] }
        : RotaryEncoder).iOld (packSample (-1) 2) < iMutations.length ∧
    iMutations.length = 16 ∧
    packSample (-1) 2 < CONNECTION_CHECK_BUF_LENGTH ∧
    (∀ buf, ({ RotaryEncoder.new 2 3 (some 7) 1 1 with tCheckBuf := some [0, 0, 0, 0] }
        : RotaryEncoder).tCheckBuf = some buf → packSample (-1) 2 < buf.length) ∧
    (({ RotaryEncoder.new 2 3 (some 7) 1 1 with tCheckBuf := some [0, 0, 0, 0] }
        : RotaryEncoder).CheckValue (-1) 2).isSome = true :=
  indices_in_bounds { RotaryEncoder.new 2 3 (some 7) 1 1 with tCheckBuf := some [0, 0, 0, 0] }
    (RotaryEncoder.Reachable.beginCheck (RotaryEncoder.new 2 3 (some 7) 1 1) _ [5, 6, 7, 8]
      (RotaryEncoder.Reachable.construct 2 3 (some 7) 1 1) (by decide)) (-1) 2

/-! ## Theorems: the connection-check buffer -/

theorem clearFrom_four (buf : List Nat) (h : buf.length = CONNECTION_CHECK_BUF_LENGTH) :
    RotaryEncoder.clearFrom buf 0 CONNECTION_CHECK_BUF_LENGTH = some [0, 0, 0, 0] := by
  simp only [CONNECTION_CHECK_BUF_LENGTH] at h ⊢
  match buf, h with
  | [a, b, c, d], _ => simp [RotaryEncoder.clearFrom]

theorem sampleCount_cons (i : Nat) (r : Int × Int) (rest : List (Int × Int)) :
    sampleCount i (r :: rest) =
      sampleCount i rest + (if packSample r.1 r.2 = i then 1 else 0) := by
  simp [sampleCount, List.count_cons]

theorem sampleCount_total (reads : List (Int × Int)) :
    sampleCount 0 reads + sampleCount 1 reads + sampleCount 2 reads + sampleCount 3 reads =
      reads.length := by
  induction reads with
  | nil => rfl
  | cons r rest ih =>
    simp only [sampleCount_cons, List.length_cons]
    have hn := packSample_lt r.1 r.2
    generalize packSample r.1 r.2 = n at hn
    interval_cases n <;> simp <;> omega

theorem sampleCount_le (i : Nat) (reads : List (Int × Int)) :
    sampleCount i reads ≤ reads.length := by
  unfold sampleCount
  have := List.count_le_length i (reads.map (fun r => packSample r.1 r.2))
  simpa using this

theorem poll_counts (reads : List (Int × Int)) : ∀ (s : RotaryEncoder) (c0 c1 c2 c3 : Nat),
    s.iOld < 4 → s.tCheckBuf = some [c0, c1, c2, c3] →
    c0 < 2 ^ 16 → c1 < 2 ^ 16 → c2 < 2 ^ 16 → c3 < 2 ^ 16 →
    ∃ s1 calls, s.poll reads = some (s1, calls) ∧
      s1.tCheckBuf = some [(c0 + sampleCount 0 reads) % 2 ^ 16,
        (c1 + sampleCount 1 reads) % 2 ^ 16, (c2 + sampleCount 2 reads) % 2 ^ 16,
        (c3 + sampleCount 3 reads) % 2 ^ 16] := by
  induction reads with
  | nil =>
    intro s c0 c1 c2 c3 _ hb h0 h1 h2 h3
    refine ⟨s, [], rfl, ?_⟩
    rw [hb]
    simp only [sampleCount, List.map_nil, List.count_nil, Nat.add_zero,
      Nat.mod_eq_of_lt h0, Nat.mod_eq_of_lt h1, Nat.mod_eq_of_lt h2, Nat.mod_eq_of_lt h3]
  | cons r rest ih =>
    intro s c0 c1 c2 c3 hOld hb h0 h1 h2 h3
    have hs : s.WellFormed := ⟨hOld, by rw [hb]; simp [CONNECTION_CHECK_BUF_LENGTH]⟩
    obtain ⟨s1, d, _, _, hcv, _, _, hwf, _, hbuf⟩ := CheckValue_step s r.1 r.2 hs
    have hb1 := hbuf _ hb
    have hn := packSample_lt r.1 r.2
    simp only [sampleCount_cons]
    generalize packSample r.1 r.2 = n at hn hb1
    have hM : ∀ x : Nat, x % 2 ^ 16 < 2 ^ 16 := fun x => Nat.mod_lt x (by decide)
    interval_cases n
    · simp only [List.set_cons_zero, List.getD_cons_zero] at hb1
      obtain ⟨s2, c2', hp2, hb2⟩ := ih s1 _ _ _ _ hwf.1 hb1 (hM _) h1 h2 h3
      refine ⟨s2, _, poll_cons s r rest s1 s2 _ c2' hcv hp2, ?_⟩
      rw [hb2]
      simp
      omega
    · simp only [List.set_cons_succ, List.set_cons_zero, List.getD_cons_succ,
        List.getD_cons_zero] at hb1
      obtain ⟨s2, c2', hp2, hb2⟩ := ih s1 _ _ _ _ hwf.1 hb1 h0 (hM _) h2 h3
      refine ⟨s2, _, poll_cons s r rest s1 s2 _ c2' hcv hp2, ?_⟩
      rw [hb2]
      simp
      omega
    · simp only [List.set_cons_succ, List.set_cons_zero, List.getD_cons_succ,
        List.getD_cons_zero] at hb1
      obtain ⟨s2, c2', hp2, hb2⟩ := ih s1 _ _ _ _ hwf.1 hb1 h0 h1 (hM _) h3
      refine ⟨s2, _, poll_cons s r rest s1 s2 _ c2' hcv hp2, ?_⟩
      rw [hb2]
      simp
      omega
    · simp only [List.set_cons_succ, List.set_cons_zero, List.getD_cons_succ,
        List.getD_cons_zero] at hb1
      obtain ⟨s2, c2', hp2, hb2⟩ := ih s1 _ _ _ _ hwf.1 hb1 h0 h1 h2 (hM _)
      refine ⟨s2, _, poll_cons s r rest s1 s2 _ c2' hcv hp2, ?_⟩
      rw [hb2]
      simp
      omega

theorem RefreshCheck_four (s : RotaryEncoder) (buf : List Nat)
    (hlen : buf.length = CONNECTION_CHECK_BUF_LENGTH) :
    ({ s with tCheckBuf := some buf } : RotaryEncoder).RefreshCheck =
      some { s with tCheckBuf := some [0, 0, 0, 0] } := by
  simp only [RotaryEncoder.RefreshCheck, clearFrom_four buf hlen]

/-- C13: for a buffer of `CONNECTION_CHECK_BUF_LENGTH` counters of any contents,
`BeginCheck(buf)` returns with the buffer installed and all four counters 0 and
nothing else changed; `RefreshCheck` on an object with that buffer installed returns
with all four counters 0, the buffer still installed and `iOld` unchanged, and the
next `CheckValue` counts its sample in it; `RefreshCheck` on an object with no buffer
returns the object unchanged. -/
theorem beginCheck_refreshCheck_clear (s : RotaryEncoder) (buf : List Nat)
    (readA readB : Int) (hlen : buf.length = CONNECTION_CHECK_BUF_LENGTH)
    (hOld : s.iOld < 4) :
    s.BeginCheck buf = some { s with tCheckBuf := some [0, 0, 0, 0] } ∧
    ({ s with tCheckBuf := some buf } : RotaryEncoder).RefreshCheck =
      some { s with tCheckBuf := some [0, 0, 0, 0] } ∧
    ({ s with tCheckBuf := some [0, 0, 0, 0] } : RotaryEncoder).iOld = s.iOld ∧
    (∃ s2 calls,
      ({ s with tCheckBuf := some [0, 0, 0, 0] } : RotaryEncoder).CheckValue readA readB =
        some (s2, calls) ∧
      s2.tCheckBuf = some ([0, 0, 0, 0].set (packSample readA readB) 1)) ∧
    (∀ t : RotaryEncoder, t.tCheckBuf = none → t.RefreshCheck = some t) := by
  refine ⟨RefreshCheck_four s buf hlen, RefreshCheck_four s buf hlen, rfl, ?_, ?_⟩
  · have hs : ({ s with tCheckBuf := some [0, 0, 0, 0] } : RotaryEncoder).WellFormed :=
      ⟨hOld, by simp [CONNECTION_CHECK_BUF_LENGTH]⟩
    obtain ⟨s2, d, _, _, hcv, _, _, _, _, hbuf⟩ := CheckValue_step _ readA readB hs
    refine ⟨s2, _, hcv, ?_⟩
    rw [hbuf [0, 0, 0, 0] rfl]
    have hn := packSample_lt readA readB
    generalize packSample readA readB = n at hn
    interval_cases n <;> rfl
  · intro t ht
    simp only [RotaryEncoder.RefreshCheck, ht]

theorem beginCheck_refreshCheck_clear_witness :
    (RotaryEncoder.new 2 3 (some 7) 1 0).BeginCheck [5, 65535, 0, 9] =
      some { RotaryEncoder.new 2 3 (some 7) 1 0 with tCheckBuf := some [0, 0, 0, 0] } ∧
    ({ RotaryEncoder.new 2 3 (some 7) 1 0 with tCheckBuf := some [5, 65535, 0, 9] }
      : RotaryEncoder).RefreshCheck =
      some { RotaryEncoder.new 2 3 (some 7) 1 0 with tCheckBuf := some [0, 0, 0, 0] } ∧
    ({ RotaryEncoder.new 2 3 (some 7) 1 0 with tCheckBuf := some [0, 0, 0, 0] }
      : RotaryEncoder).iOld = (RotaryEncoder.new 2 3 (some 7) 1 0).iOld ∧
    (∃ s2 calls,
      ({ RotaryEncoder.new 2 3 (some 7) 1 0 with tCheckBuf := some [0, 0, 0, 0] }
        : RotaryEncoder).CheckValue 1 1 = some (s2, calls) ∧
      s2.tCheckBuf = some ([0, 0, 0, 0].set (packSample 1 1) 1)) ∧
    (∀ t : RotaryEncoder, t.tCheckBuf = none → t.RefreshCheck = some t) :=
  beginCheck_refreshCheck_clear (RotaryEncoder.new 2 3 (some 7) 1 0) [5, 65535, 0, 9] 1 1
    (by decide) (by decide)

/-- C19: for a buffer of `CONNECTION_CHECK_BUF_LENGTH` counters and fewer than 65536
polls, after `BeginCheck` (or `RefreshCheck` on an object with the buffer installed)
followed by the polls, counter `i` is the number of polls whose packed sample was
`i`, and the four counters add up to the number of polls. -/
theorem counters_count_samples (s : RotaryEncoder) (buf : List Nat)
    (reads : List (Int × Int)) (hlen : buf.length = CONNECTION_CHECK_BUF_LENGTH)
    (hOld : s.iOld < 4) (hn : reads.length < 65536) :
    ∃ s0 s1 calls,
      s.BeginCheck buf = some s0 ∧
      ({ s with tCheckBuf := some buf } : RotaryEncoder).RefreshCheck = some s0 ∧
      s0.poll reads = some (s1, calls) ∧
      s1.tCheckBuf = some [sampleCount 0 reads, sampleCount 1 reads, sampleCount 2 reads,
        sampleCount 3 reads] ∧
      sampleCount 0 reads + sampleCount 1 reads + sampleCount 2 reads + sampleCount 3 reads =
        reads.length := by
  obtain ⟨s1, calls, hp, hb⟩ := poll_counts reads
    ({ s with tCheckBuf := some [0, 0, 0, 0] } : RotaryEncoder) 0 0 0 0 hOld rfl
    (by decide) (by decide) (by decide) (by decide)
  refine ⟨_, s1, calls, RefreshCheck_four s buf hlen, RefreshCheck_four s buf hlen, hp, ?_,
    sampleCount_total reads⟩
  rw [hb]
  have h0 := sampleCount_le 0 reads
  have h1 := sampleCount_le 1 reads
  have h2 := sampleCount_le 2 reads
  have h3 := sampleCount_le 3 reads
  simp only [Nat.zero_add]
  rw [Nat.mod_eq_of_lt (by omega), Nat.mod_eq_of_lt (by omega), Nat.mod_eq_of_lt (by omega),
    Nat.mod_eq_of_lt (by omega)]

theorem counters_count_samples_witness :
    ∃ s0 s1 calls,
      (RotaryEncoder.new 2 3 (some 7) 1 0).BeginCheck [5, 65535, 0, 9] = some s0 ∧
      ({ RotaryEncoder.new 2 3 (some 7) 1 0 with tCheckBuf := some [5, 65535, 0, 9] }
        : RotaryEncoder).RefreshCheck = some s0 ∧
      s0.poll [(1, 1), (1, 1), (0, 1), (0, 0), (1, 1)] = some (s1, calls) ∧
      s1.tCheckBuf = some [sampleCount 0 [(1, 1), (1, 1), (0, 1), (0, 0), (1, 1)],
        sampleCount 1 [(1, 1), (1, 1), (0, 1), (0, 0), (1, 1)],
        sampleCount 2 [(1, 1), (1, 1), (0, 1), (0, 0), (1, 1)],
        sampleCount 3 [(1, 1), (1, 1), (0, 1), (0, 0), (1, 1)]] ∧
      sampleCount 0 [(1, 1), (1, 1), (0, 1), (0, 0), (1, 1)] +
        sampleCount 1 [(1, 1), (1, 1), (0, 1), (0, 0), (1, 1)] +
        sampleCount 2 [(1, 1), (1, 1), (0, 1), (0, 0), (1, 1)] +
        sampleCount 3 [(1, 1), (1, 1), (0, 1), (0, 0), (1, 1)] =
        [((1 : Int), (1 : Int)), (1, 1), (0, 1), (0, 0), (1, 1)].length :=
  counters_count_samples (RotaryEncoder.new 2 3 (some 7) 1 0) [5, 65535, 0, 9]
    [(1, 1), (1, 1), (0, 1), (0, 0), (1, 1)] (by decide) (by decide) (by decide)

/-! ## Theorems: periods of zero ticks and callbacks that re-arm -/

theorem ISR_fire_env (env : CallbackEnv) (g : TimerGlobals) (a b : Attach) (f : Nat)
    (h : g.tAttaches = [a]) (hf : a.fCallBack = some f) (hm : a.iMode ≠ STOP)
    (hr : (a.lRemaining + 2 ^ 32 - 1) % 2 ^ 32 = 0)
    (henv : env f { g with tAttaches := [{ a with lRemaining := 0 }] } =
      { g with tAttaches := [b] }) :
    ISR_TIMER1_COMPA env g =
      ({ g with tAttaches :=
          [{ b with iMode := if b.iMode = ONCE then STOP else b.iMode,
                    lRemaining := b.lTimeMicroseconds }] },
        [f]) := by
  obtain ⟨cbA, T, R, M⟩ := a
  obtain ⟨inst, tab, runs⟩ := g
  simp only at h hf hm hr henv
  subst h
  subst hf
  have hr1 : (R + 4294967295) % 4294967296 = 0 := by omega
  simp only [ISR_TIMER1_COMPA, MAX_INSTANCE, List.range_succ, List.range_zero, List.nil_append,
    List.foldl_cons, List.foldl_nil, isrSlot, TimerGlobals.slot, TimerGlobals.setSlot,
    List.getD_cons_zero, List.set_cons_zero]
  have hr2 : (R + 2 ^ 32 - 1) % 2 ^ 32 = 0 := hr
  simp only [hr2, henv, if_pos hm, if_true, List.getD_cons_zero]
  by_cases hO : b.iMode = ONCE
  · simp [hO]
  · simp [hO]

theorem ticks_to_fire_trace (env : CallbackEnv) (f : Nat) (g : TimerGlobals) (a : Attach)
    (h : g.tAttaches = [a]) (hf : a.fCallBack = some f) (hm : a.iMode ≠ STOP)
    (hpos : 1 ≤ a.lRemaining) (hle : a.lRemaining ≤ 2 ^ 32) :
    (ticks env a.lRemaining g).2 = [f] := by
  obtain ⟨r, hr⟩ : ∃ r, a.lRemaining = r + 1 := ⟨a.lRemaining - 1, by omega⟩
  rw [hr, ticks_add env r 1 g, ticks_countdown env f r g a h hf hm (by omega) hle]
  simp only [ticks, List.nil_append, List.append_nil]
  have hs : ∀ (x : TimerGlobals) (c : Attach), x.tAttaches = [c] → x.slot 0 = c := by
    intro x c hx
    simp [TimerGlobals.slot, hx]
  simp only [ISR_TIMER1_COMPA, MAX_INSTANCE, List.range_succ, List.range_zero, List.nil_append,
    List.foldl_cons, List.foldl_nil, isrSlot, TimerGlobals.slot, List.getD_cons_zero, hf]
  have hr1 : (a.lRemaining - r + 4294967295) % 4294967296 = 0 := by omega
  simp [hm, TimerGlobals.setSlot, hr1]

theorem ticks_one (env : CallbackEnv) (g : TimerGlobals) :
    ticks env 1 g = ISR_TIMER1_COMPA env g := by
  simp [ticks]

theorem zero_period_run (env : CallbackEnv) (inst runs cb m : Nat) (hm : m ≠ STOP) :
    ISR_TIMER1_COMPA env ⟨inst, [⟨some cb, 0, 0, m⟩], runs⟩ =
      (⟨inst, [⟨some cb, 0, 2 ^ 32 - 1, m⟩], runs⟩, []) ∧
    (∀ k, k < 2 ^ 32 → (ticks env k ⟨inst, [⟨some cb, 0, 0, m⟩], runs⟩).2 = []) ∧
    (ticks env (2 ^ 32) ⟨inst, [⟨some cb, 0, 0, m⟩], runs⟩).2 = [cb] := by
  have hstep : ISR_TIMER1_COMPA env ⟨inst, [⟨some cb, 0, 0, m⟩], runs⟩ =
      (⟨inst, [⟨some cb, 0, 2 ^ 32 - 1, m⟩], runs⟩, []) := by
    have h0 := ISR_count env ⟨inst, [⟨some cb, 0, 0, m⟩], runs⟩ ⟨some cb, 0, 0, m⟩ cb rfl rfl hm
      (by simp only; omega)
    simpa using h0
  refine ⟨hstep, fun k hk => ?_, ?_⟩
  · cases k with
    | zero => rfl
    | succ k =>
      rw [Nat.add_comm, ticks_add env 1 k, ticks_one, hstep]
      simp only
      rw [ticks_countdown env cb k ⟨inst, [⟨some cb, 0, 2 ^ 32 - 1, m⟩], runs⟩
        ⟨some cb, 0, 2 ^ 32 - 1, m⟩ rfl rfl hm (by simp only; omega) (by simp only; omega)]
      rfl
  · have hfire := ticks_to_fire_trace env cb ⟨inst, [⟨some cb, 0, 2 ^ 32 - 1, m⟩], runs⟩
      ⟨some cb, 0, 2 ^ 32 - 1, m⟩ rfl rfl hm (by simp only; omega) (by simp only; omega)
    simp only at hfire
    rw [show (2 : Nat) ^ 32 = 1 + (2 ^ 32 - 1) from by norm_num, ticks_add env 1 (2 ^ 32 - 1),
      ticks_one, hstep]
    simp only
    rw [hfire]
    rfl

/-- C18: on a handle that owns a slot, an attach of a period shorter than one tick
(`attach_us` / `once_us` with fewer than 100 microseconds, `attach_ms` / `once_ms` with 0
milliseconds) with a non-null callback stores a period and a remaining count of 0; the
next tick pass calls nothing and leaves a remaining count of 2^32 - 1; no callback is
called during the first 2^32 - 1 passes, and the callback has been called exactly once
after 2^32 passes. -/
theorem short_period_wraps (env : CallbackEnv) (g : TimerGlobals) (t : Timer) (v cb : Nat)
    (g1 : TimerGlobals) (hg : g.WellFormed) (ht : t.OwnsSlot)
    (hg1 : (v < 100 ∧
        (g1 = Timer.attach_us g t v (some cb) ∨ g1 = Timer.once_us g t v (some cb))) ∨
      (v = 0 ∧
        (g1 = Timer.attach_ms g t v (some cb) ∨ g1 = Timer.once_ms g t v (some cb)))) :
    (g1.slot 0).fCallBack = some cb ∧
    (g1.slot 0).lTimeMicroseconds = 0 ∧ (g1.slot 0).lRemaining = 0 ∧
    (ISR_TIMER1_COMPA env g1).2 = [] ∧
    ((ISR_TIMER1_COMPA env g1).1.slot 0).lRemaining = 2 ^ 32 - 1 ∧
    (∀ k, k < 2 ^ 32 → (ticks env k g1).2 = []) ∧
    (ticks env (2 ^ 32) g1).2 = [cb] := by
  have key : ∃ inst runs m, g1 = ⟨inst, [⟨some cb, 0, 0, m⟩], runs⟩ ∧ m ≠ STOP := by
    rcases hg1 with ⟨hv, h | h⟩ | ⟨hv, h | h⟩
    · rw [attach_us_table g t v (some cb) hg ht, Nat.div_eq_of_lt hv] at h
      exact ⟨g.iInstance, g.setupRuns, START, h, by decide⟩
    · rw [once_us_table g t v (some cb) hg ht, Nat.div_eq_of_lt hv] at h
      exact ⟨g.iInstance, g.setupRuns, ONCE, h, by decide⟩
    · subst hv
      rw [attach_ms_table g t 0 (some cb) hg ht] at h
      exact ⟨g.iInstance, g.setupRuns, START, h, by decide⟩
    · subst hv
      rw [once_ms_table g t 0 (some cb) hg ht] at h
      exact ⟨g.iInstance, g.setupRuns, ONCE, h, by decide⟩
  obtain ⟨inst, runs, m, hgeq, hm⟩ := key
  subst hgeq
  obtain ⟨hstep, hquiet, hfire⟩ := zero_period_run env inst runs cb m hm
  refine ⟨rfl, rfl, rfl, ?_, ?_, hquiet, hfire⟩
  · rw [hstep]
  · rw [hstep]
    rfl

theorem short_period_wraps_witness :
    (shortOnce.slot 0).fCallBack = some 7 ∧
    (shortOnce.slot 0).lTimeMicroseconds = 0 ∧ (shortOnce.slot 0).lRemaining = 0 ∧
    (ISR_TIMER1_COMPA quietEnv shortOnce).2 = [] ∧
    ((ISR_TIMER1_COMPA quietEnv shortOnce).1.slot 0).lRemaining = 2 ^ 32 - 1 ∧
    (∀ k, k < 2 ^ 32 → (ticks quietEnv k shortOnce).2 = []) ∧
    (ticks quietEnv (2 ^ 32) shortOnce).2 = [7] :=
  short_period_wraps quietEnv (Timer.new TimerGlobals.init).1 (Timer.new TimerGlobals.init).2
    50 7 shortOnce (by decide) (by decide) (Or.inl ⟨by decide, Or.inr rfl⟩)

/-- C20: on a table with the one slot `a`, one-shot, with callback `f` and a remaining
count of 1, and `t` the handle that owns the slot. If `f` calls `once_us` (or `once_ms`)
on `t`, the pass calls `f` once and leaves the slot with the new callback and period
but mode `STOP`, and no later pass calls anything. If `f` calls `attach_us` (or
`attach_ms`) on `t`, the pass calls `f` once and leaves the slot with mode `START` and a
remaining count equal to the newly stored period. -/
theorem rearm_inside_callback (env1 env2 env3 env4 : CallbackEnv) (g : TimerGlobals)
    (a : Attach) (t : Timer) (f v : Nat) (cb2 : Option Nat)
    (h : g.tAttaches = [a]) (ht : t.OwnsSlot) (hf : a.fCallBack = some f)
    (hO : a.iMode = ONCE) (hr : a.lRemaining = 1)
    (h1 : ∀ x, env1 f x = Timer.once_us x t v cb2)
    (h2 : ∀ x, env2 f x = Timer.once_ms x t v cb2)
    (h3 : ∀ x, env3 f x = Timer.attach_us x t v cb2)
    (h4 : ∀ x, env4 f x = Timer.attach_ms x t v cb2) :
    (ISR_TIMER1_COMPA env1 g =
        ({ g with tAttaches := [⟨cb2, v / 100, v / 100, STOP⟩] }, [f]) ∧
      ∀ n, (ticks env1 n (ISR_TIMER1_COMPA env1 g).1).2 = []) ∧
    (ISR_TIMER1_COMPA env2 g =
        ({ g with tAttaches :=
            [⟨cb2, v * 1000 % 2 ^ 32 / 100, v * 1000 % 2 ^ 32 / 100, STOP⟩] }, [f]) ∧
      ∀ n, (ticks env2 n (ISR_TIMER1_COMPA env2 g).1).2 = []) ∧
    ISR_TIMER1_COMPA env3 g =
      ({ g with tAttaches := [⟨cb2, v / 100, v / 100, START⟩] }, [f]) ∧
    ISR_TIMER1_COMPA env4 g =
      ({ g with tAttaches :=
          [⟨cb2, v * 1000 % 2 ^ 32 / 100, v * 1000 % 2 ^ 32 / 100, START⟩] }, [f]) := by
  have hm : a.iMode ≠ STOP := by rw [hO]; decide
  have hfire : (a.lRemaining + 2 ^ 32 - 1) % 2 ^ 32 = 0 := by rw [hr]; norm_num
  have hwf : ({ g with tAttaches := [{ a with lRemaining := 0 }] } : TimerGlobals).WellFormed :=
    rfl
  have hSO : START ≠ ONCE := by decide
  have e1 := ISR_fire_env env1 g a ⟨cb2, v / 100, v / 100, ONCE⟩ f h hf hm hfire
    (by rw [h1, once_us_table _ t v cb2 hwf ht])
  have e2 := ISR_fire_env env2 g a
    ⟨cb2, v * 1000 % 2 ^ 32 / 100, v * 1000 % 2 ^ 32 / 100, ONCE⟩ f h hf hm hfire
    (by rw [h2, once_ms_table _ t v cb2 hwf ht])
  have e3 := ISR_fire_env env3 g a ⟨cb2, v / 100, v / 100, START⟩ f h hf hm hfire
    (by rw [h3, attach_us_table _ t v cb2 hwf ht])
  have e4 := ISR_fire_env env4 g a
    ⟨cb2, v * 1000 % 2 ^ 32 / 100, v * 1000 % 2 ^ 32 / 100, START⟩ f h hf hm hfire
    (by rw [h4, attach_ms_table _ t v cb2 hwf ht])
  simp only [if_true] at e1 e2
  simp only [if_neg hSO] at e3 e4
  refine ⟨⟨e1, fun n => ?_⟩, ⟨e2, fun n => ?_⟩, e3, e4⟩
  · rw [e1]
    simp only
    rw [ticks_idle env1 n _ ⟨cb2, v / 100, v / 100, STOP⟩ rfl (Or.inr rfl)]
  · rw [e2]
    simp only
    rw [ticks_idle env2 n _
      ⟨cb2, v * 1000 % 2 ^ 32 / 100, v * 1000 % 2 ^ 32 / 100, STOP⟩ rfl (Or.inr rfl)]

theorem rearm_inside_callback_witness :
    (ISR_TIMER1_COMPA (fun _ x => Timer.once_us x ⟨0⟩ 350 (some 8))
        ⟨1, [⟨some 7, 5, 1, ONCE⟩], 1⟩ =
        ({ (⟨1, [⟨some 7, 5, 1, ONCE⟩], 1⟩ : TimerGlobals) with
            tAttaches := [⟨some 8, 350 / 100, 350 / 100, STOP⟩] }, [7]) ∧
      ∀ n, (ticks (fun _ x => Timer.once_us x ⟨0⟩ 350 (some 8)) n
        (ISR_TIMER1_COMPA (fun _ x => Timer.once_us x ⟨0⟩ 350 (some 8))
          ⟨1, [⟨some 7, 5, 1, ONCE⟩], 1⟩).1).2 = []) ∧
    (ISR_TIMER1_COMPA (fun _ x => Timer.once_ms x ⟨0⟩ 350 (some 8))
        ⟨1, [⟨some 7, 5, 1, ONCE⟩], 1⟩ =
        ({ (⟨1, [⟨some 7, 5, 1, ONCE⟩], 1⟩ : TimerGlobals) with
            tAttaches :=
              [⟨some 8, 350 * 1000 % 2 ^ 32 / 100, 350 * 1000 % 2 ^ 32 / 100, STOP⟩] }, [7]) ∧
      ∀ n, (ticks (fun _ x => Timer.once_ms x ⟨0⟩ 350 (some 8)) n
        (ISR_TIMER1_COMPA (fun _ x => Timer.once_ms x ⟨0⟩ 350 (some 8))
          ⟨1, [⟨some 7, 5, 1, ONCE⟩], 1⟩).1).2 = []) ∧
    ISR_TIMER1_COMPA (fun _ x => Timer.attach_us x ⟨0⟩ 350 (some 8))
        ⟨1, [⟨some 7, 5, 1, ONCE⟩], 1⟩ =
      ({ (⟨1, [⟨some 7, 5, 1, ONCE⟩], 1⟩ : TimerGlobals) with
          tAttaches := [⟨some 8, 350 / 100, 350 / 100, START⟩] }, [7]) ∧
    ISR_TIMER1_COMPA (fun _ x => Timer.attach_ms x ⟨0⟩ 350 (some 8))
        ⟨1, [⟨some 7, 5, 1, ONCE⟩], 1⟩ =
      ({ (⟨1, [⟨some 7, 5, 1, ONCE⟩], 1⟩ : TimerGlobals) with
          tAttaches :=
            [⟨some 8, 350 * 1000 % 2 ^ 32 / 100, 350 * 1000 % 2 ^ 32 / 100, START⟩] }, [7]) :=
  rearm_inside_callback (fun _ x => Timer.once_us x ⟨0⟩ 350 (some 8))
    (fun _ x => Timer.once_ms x ⟨0⟩ 350 (some 8))
    (fun _ x => Timer.attach_us x ⟨0⟩ 350 (some 8))
    (fun _ x => Timer.attach_ms x ⟨0⟩ 350 (some 8))
    ⟨1, [⟨some 7, 5, 1, ONCE⟩], 1⟩ ⟨some 7, 5, 1, ONCE⟩ ⟨0⟩ 7 350 (some 8)
    rfl (by decide) rfl rfl rfl (fun _ => rfl) (fun _ => rfl) (fun _ => rfl) (fun _ => rfl)
